import Mathlib

/-!
URL shortener: in-memory store and shortcode policy

A shallow embedding of `internal/models/url.go`, `internal/storage/url_store.go`
and `internal/utils/shortcode.go`, followed by the properties proved about them.

Modelling conventions

* `time.Time` is an instant counted in nanoseconds; `After` is the strict order
  on instants.  `time.Now()` is an explicit argument `now` of every operation
  that reads the clock.
* Go's `int` is the 64-bit two's-complement integer of the usual platforms
  (amd64, arm64): arithmetic on it wraps, see `wrapInt`.
* `map[string]ShortURL` is a finite partial function; it is modelled by its
  lookup function `String → Option ShortURL`.  The store never iterates over
  the map, so nothing else of the map can be observed.
* every method of the store holds the table-wide lock for its whole body, so a
  method is one atomic transition: it takes the store and returns its result
  together with the store afterwards.
* a Go slice is the list of its elements and `append` adds one element at the
  end; where the sharing of a backing array between slices matters, the store
  is modelled a second time with slice headers and memory cells.
-/

namespace URLShortener

/-! ## Data model (`internal/models/url.go`) -/

/-- An instant of `time.Time`, in nanoseconds. -/
structure Time where
  nanos : Int
deriving DecidableEq, Repr

/-- The method `t.After(u)`: the instant `t` is strictly later than `u`. -/
def Time.After (t u : Time) : Bool := decide (u.nanos < t.nanos)

/-- Reduction of a mathematical integer to Go's 64-bit `int`. -/
def wrapInt (x : Int) : Int := (x + 2 ^ 63) % 2 ^ 64 - 2 ^ 63

/-- The largest value of Go's 64-bit `int`. -/
def maxInt : Int := 2 ^ 63 - 1

/-- The struct `models.Click`. -/
structure Click where
  Timestamp : Time
  Referrer : String
  Location : String
  UserAgent : String
deriving DecidableEq, Repr

/-- The struct `models.ShortURL`. -/
structure ShortURL where
  ID : String
  OriginalURL : String
  CreatedAt : Time
  ExpiresAt : Time
  Clicks : Int
  ClickData : List Click
deriving DecidableEq, Repr

/-! ## Store (`internal/storage/url_store.go`) -/

/-- The three error values of the storage package. -/
inductive StoreError where
  | ErrShortcodeNotFound
  | ErrShortcodeExists
  | ErrShortcodeExpired
deriving DecidableEq, Repr

/-- The assignment `m[k] = v` on a Go map. -/
def mapSet (m : String → Option ShortURL) (k : String) (v : ShortURL) :
    String → Option ShortURL :=
  fun k' => if k' = k then some v else m k'

/-- The statement `delete(m, k)` on a Go map. -/
def mapDelete (m : String → Option ShortURL) (k : String) :
    String → Option ShortURL :=
  fun k' => if k' = k then none else m k'

/-- The struct `InMemoryURLStore`: the table `urls`. -/
structure InMemoryURLStore where
  urls : String → Option ShortURL

/-- The constructor `NewURLStore`: an empty table. -/
def NewURLStore : InMemoryURLStore := ⟨fun _ => none⟩

namespace InMemoryURLStore

/-- The method `Create`: the returned error (`none` is Go's `nil`) and the store
afterwards. -/
def Create (s : InMemoryURLStore) (shortURL : ShortURL) :
    Option StoreError × InMemoryURLStore :=
  match s.urls shortURL.ID with
  | some _ => (some StoreError.ErrShortcodeExists, s)
  | none => (none, ⟨mapSet s.urls shortURL.ID shortURL⟩)

/-- The method `Get`, called when the clock reads `now`. -/
def Get (s : InMemoryURLStore) (now : Time) (shortcode : String) :
    Except StoreError ShortURL × InMemoryURLStore :=
  match s.urls shortcode with
  | none => (Except.error StoreError.ErrShortcodeNotFound, s)
  | some shortURL =>
    if now.After shortURL.ExpiresAt then
      (Except.error StoreError.ErrShortcodeExpired, s)
    else
      (Except.ok shortURL, s)

/-- The method `Update`. -/
def Update (s : InMemoryURLStore) (shortURL : ShortURL) :
    Option StoreError × InMemoryURLStore :=
  match s.urls shortURL.ID with
  | none => (some StoreError.ErrShortcodeNotFound, s)
  | some _ => (none, ⟨mapSet s.urls shortURL.ID shortURL⟩)

/-- The method `Delete`. -/
def Delete (s : InMemoryURLStore) (shortcode : String) :
    Option StoreError × InMemoryURLStore :=
  match s.urls shortcode with
  | none => (some StoreError.ErrShortcodeNotFound, s)
  | some _ => (none, ⟨mapDelete s.urls shortcode⟩)

/-- The method `RecordClick`, called when the clock reads `now`. -/
def RecordClick (s : InMemoryURLStore) (now : Time) (shortcode : String)
    (click : Click) : Option StoreError × InMemoryURLStore :=
  match s.urls shortcode with
  | none => (some StoreError.ErrShortcodeNotFound, s)
  | some shortURL =>
    if now.After shortURL.ExpiresAt then
      (some StoreError.ErrShortcodeExpired, s)
    else
      (none, ⟨mapSet s.urls shortcode
        { shortURL with
          Clicks := wrapInt (shortURL.Clicks + 1)
          ClickData := shortURL.ClickData ++ [click] }⟩)

/-- The method `ShortcodeExists`. -/
def ShortcodeExists (s : InMemoryURLStore) (shortcode : String) :
    Bool × InMemoryURLStore :=
  ((s.urls shortcode).isSome, s)

end InMemoryURLStore

/-! ## Sequences of store calls -/

/-- One call of a method of the `URLStore` interface. -/
inductive Op where
  | Create (shortURL : ShortURL)
  | Get (shortcode : String)
  | Update (shortURL : ShortURL)
  | Delete (shortcode : String)
  | RecordClick (shortcode : String) (click : Click)
  | ShortcodeExists (shortcode : String)
deriving DecidableEq, Repr

/-- A call together with the reading of the clock while it runs. -/
structure Call where
  now : Time
  op : Op
deriving DecidableEq, Repr

/-- The store after one call. -/
def stepStore (s : InMemoryURLStore) (c : Call) : InMemoryURLStore :=
  match c.op with
  | Op.Create shortURL => (s.Create shortURL).2
  | Op.Get shortcode => (s.Get c.now shortcode).2
  | Op.Update shortURL => (s.Update shortURL).2
  | Op.Delete shortcode => (s.Delete shortcode).2
  | Op.RecordClick shortcode click => (s.RecordClick c.now shortcode click).2
  | Op.ShortcodeExists shortcode => (s.ShortcodeExists shortcode).2

/-- The store after a sequence of calls, run one after the other. -/
def runCalls (s : InMemoryURLStore) : List Call → InMemoryURLStore
  | [] => s
  | c :: cs => runCalls (stepStore s c) cs

/-- Whether the call is a `Create` for shortcode `code` that returns `nil`. -/
def createSucceeds (s : InMemoryURLStore) (c : Call) (code : String) : Bool :=
  match c.op with
  | Op.Create shortURL => decide (shortURL.ID = code) && (s.Create shortURL).1.isNone
  | _ => false

/-- The number of successful `Create` calls for `code` in a sequence of calls. -/
def successfulCreates (code : String) : InMemoryURLStore → List Call → Nat
  | _, [] => 0
  | s, c :: cs =>
    (if createSucceeds s c code then 1 else 0) + successfulCreates code (stepStore s c) cs

/-- Whether the call is a `Delete` of shortcode `code` that returns `nil`. -/
def deleteSucceeds (s : InMemoryURLStore) (c : Call) (code : String) : Bool :=
  match c.op with
  | Op.Delete shortcode => decide (shortcode = code) && (s.Delete shortcode).1.isNone
  | _ => false

/-- The number of successful `Delete` calls for `code` in a sequence of calls. -/
def successfulDeletes (code : String) : InMemoryURLStore → List Call → Nat
  | _, [] => 0
  | s, c :: cs =>
    (if deleteSucceeds s c code then 1 else 0) + successfulDeletes code (stepStore s c) cs

/-- Whether the record a call hands to the store (the argument of `Create` or
`Update`) is an `int` click count equal to the length of its click list; calls
that hand over no record pass. -/
def suppliesCountedRecord (op : Op) : Bool :=
  match op with
  | Op.Create shortURL =>
    decide (shortURL.Clicks = shortURL.ClickData.length) && decide (shortURL.Clicks ≤ maxInt)
  | Op.Update shortURL =>
    decide (shortURL.Clicks = shortURL.ClickData.length) && decide (shortURL.Clicks ≤ maxInt)
  | _ => true

/-- The store after a sequence of `RecordClick` calls on one shortcode, each
with its own clock reading, together with the errors the calls returned. -/
def recordClicks (s : InMemoryURLStore) (shortcode : String) :
    List (Time × Click) → List (Option StoreError) × InMemoryURLStore
  | [] => ([], s)
  | (now, click) :: rest =>
    let r := s.RecordClick now shortcode click
    let rs := recordClicks r.2 shortcode rest
    (r.1 :: rs.1, rs.2)

/-! ## Store with click lists in memory

The store above takes a click list as a value.  In Go the field `ClickData` is
a slice header (pointer, length, capacity) over an array in memory, a struct
copy copies only the header, and `append` writes into the array when the
capacity allows.  The definitions below keep the click events in memory cells
and the headers in the table, so that two records sharing one array can be
told apart from two records with equal lists.  Allocation takes the cells from
`next` upwards; the capacity of a new array is the choice `growCap` of the Go
run time, raised to the needed length when it is smaller. -/

/-- A slice header of type `[]models.Click`: the address of its first element,
its length and its capacity. -/
structure Slice where
  ptr : Nat
  len : Nat
  cap : Nat
deriving DecidableEq, Repr

/-- The memory holding click events: the content of each cell and the first
address that no array occupies yet. -/
structure Memory where
  cells : Nat → Click
  next : Nat

/-- The elements `s[0], ..., s[len-1]` of a slice. -/
def Slice.read (m : Memory) (s : Slice) : List Click :=
  (List.range s.len).map (fun i => m.cells (s.ptr + i))

/-- Whether `append(s, x)` writes the cell at address `a`: in place it writes
the one cell after the last element; otherwise it fills the first `len + 1`
cells of a new array. -/
def appendWrites (m : Memory) (s : Slice) (a : Nat) : Bool :=
  if s.len < s.cap then decide (a = s.ptr + s.len)
  else decide (m.next ≤ a) && decide (a ≤ m.next + s.len)

/-- The built-in `append(s, x)` for one element: the new header and the memory
afterwards. -/
def appendClick (growCap : Nat → Nat) (m : Memory) (s : Slice) (x : Click) :
    Slice × Memory :=
  if s.len < s.cap then
    (⟨s.ptr, s.len + 1, s.cap⟩,
      ⟨fun a => if a = s.ptr + s.len then x else m.cells a, m.next⟩)
  else
    let newcap := max (s.len + 1) (growCap s.cap)
    (⟨m.next, s.len + 1, newcap⟩,
      ⟨fun a =>
        if m.next ≤ a ∧ a < m.next + s.len then m.cells (s.ptr + (a - m.next))
        else if a = m.next + s.len then x
        else m.cells a, m.next + newcap⟩)

/-- The struct `models.ShortURL` with its field `ClickData` as a slice header. -/
structure SliceShortURL where
  ID : String
  OriginalURL : String
  CreatedAt : Time
  ExpiresAt : Time
  Clicks : Int
  ClickData : Slice
deriving DecidableEq, Repr

/-- The record as a value: the click list read from memory. -/
def SliceShortURL.value (m : Memory) (u : SliceShortURL) : ShortURL :=
  ⟨u.ID, u.OriginalURL, u.CreatedAt, u.ExpiresAt, u.Clicks, u.ClickData.read m⟩

/-- The struct `InMemoryURLStore` together with the memory its slices point to. -/
structure SliceURLStore where
  urls : String → Option SliceShortURL
  mem : Memory

namespace SliceURLStore

/-- The method `Create` on headers: the struct is copied into the table. -/
def Create (s : SliceURLStore) (shortURL : SliceShortURL) :
    Option StoreError × SliceURLStore :=
  match s.urls shortURL.ID with
  | some _ => (some StoreError.ErrShortcodeExists, s)
  | none =>
    (none, ⟨fun k => if k = shortURL.ID then some shortURL else s.urls k, s.mem⟩)

/-- The method `RecordClick` on headers and memory. -/
def RecordClick (growCap : Nat → Nat) (s : SliceURLStore) (now : Time)
    (shortcode : String) (click : Click) : Option StoreError × SliceURLStore :=
  match s.urls shortcode with
  | none => (some StoreError.ErrShortcodeNotFound, s)
  | some shortURL =>
    if now.After shortURL.ExpiresAt then
      (some StoreError.ErrShortcodeExpired, s)
    else
      let appended := appendClick growCap s.mem shortURL.ClickData click
      (none, ⟨fun k =>
        if k = shortcode then
          some { shortURL with
            Clicks := wrapInt (shortURL.Clicks + 1)
            ClickData := appended.1 }
        else s.urls k, appended.2⟩)

end SliceURLStore

/-- The store as a table of values: every record with its click list read
from memory. -/
def SliceURLStore.value (s : SliceURLStore) : InMemoryURLStore :=
  ⟨fun k => (s.urls k).map (SliceShortURL.value s.mem)⟩

/-- Two records created over one array: the caller allocates an empty slice of
capacity 4 (`make([]models.Click, 0, 4)`, the cells 0 to 3) and creates the
records "first" and "second" with that same slice as `ClickData`. -/
def sharedArrayStore : SliceURLStore :=
  ((SliceURLStore.Create
    (SliceURLStore.Create ⟨fun _ => none, ⟨fun _ => ⟨⟨0⟩, "", "", ""⟩, 4⟩⟩
      ⟨"first", "https://example.com/1", ⟨0⟩, ⟨60⟩, 0, ⟨0, 0, 4⟩⟩).2
    ⟨"second", "https://example.com/2", ⟨0⟩, ⟨60⟩, 0, ⟨0, 0, 4⟩⟩).2)

/-- Two records with arrays of their own: "first", without clicks, over the
cells 0 to 3, and "second", with one click in cell 4, over the cells 4 to 7. -/
def separateArraysStore : SliceURLStore :=
  ((SliceURLStore.Create
    (SliceURLStore.Create
      ⟨fun _ => none,
        ⟨fun a => if a = 4 then ⟨⟨0⟩, "seen", "", ""⟩ else ⟨⟨0⟩, "", "", ""⟩, 8⟩⟩
      ⟨"first", "https://example.com/1", ⟨0⟩, ⟨60⟩, 0, ⟨0, 0, 4⟩⟩).2
    ⟨"second", "https://example.com/2", ⟨0⟩, ⟨60⟩, 1, ⟨4, 1, 4⟩⟩).2)

/-! ## Shortcode policy (`internal/utils/shortcode.go`)

A Go string is modelled by a `String`; `len` is its length in bytes
(`String.utf8ByteSize`), and the regular expression reads it rune by rune.
A byte of the random buffer is a natural number below 256. -/

/-- The constant `DefaultShortcodeLength`. -/
def DefaultShortcodeLength : Int := 6

/-- The constant `MaxShortcodeLength`. -/
def MaxShortcodeLength : Nat := 12

/-- The character class `[a-zA-Z0-9_-]` of `ValidShortcodePattern`. -/
def shortcodeClass (c : Char) : Bool :=
  (decide ('a' ≤ c) && decide (c ≤ 'z')) ||
  (decide ('A' ≤ c) && decide (c ≤ 'Z')) ||
  (decide ('0' ≤ c) && decide (c ≤ '9')) ||
  c == '_' || c == '-'

/-- Matching `cls+` up to the end of the text (`$` without the multi-line flag
is the end of the text in Go's regexp): at least one rune, all of the class. -/
def matchClassPlusEnd (cls : Char → Bool) : List Char → Bool
  | [] => false
  | [c] => cls c
  | c :: cs => cls c && matchClassPlusEnd cls cs

/-- The call `ValidShortcodePattern.MatchString(s)` for the anchored pattern
`^[a-zA-Z0-9_-]+$`: the match starts at the beginning of the text. -/
def ValidShortcodePattern_MatchString (s : String) : Bool :=
  matchClassPlusEnd shortcodeClass s.data

/-- The function `ValidateShortcode`. -/
def ValidateShortcode (shortcode : String) : Bool :=
  if shortcode = "" then false
  else if shortcode.utf8ByteSize > MaxShortcodeLength then false
  else ValidShortcodePattern_MatchString shortcode

/-- The alphabet of `base64.URLEncoding` (Go standard library). -/
def encodeURL : List Char :=
  "ABCDEFGHIJKLMNOPQRSTUVWXYZabcdefghijklmnopqrstuvwxyz0123456789-_".data

/-- The table lookup `enc.encode[i]`. -/
def encodeAt (i : Nat) : Char := encodeURL.getD i '\x00'

/-- The method `base64.URLEncoding.EncodeToString` (Go standard library,
padded with `=`): three bytes give four characters, a rest of one or two bytes
gives two or three characters and padding. -/
def EncodeToString : List Nat → List Char
  | b0 :: b1 :: b2 :: rest =>
    let val := (b0 <<< 16) ||| (b1 <<< 8) ||| b2
    encodeAt ((val >>> 18) &&& 0x3F) :: encodeAt ((val >>> 12) &&& 0x3F) ::
      encodeAt ((val >>> 6) &&& 0x3F) :: encodeAt (val &&& 0x3F) ::
      EncodeToString rest
  | [b0, b1] =>
    let val := (b0 <<< 16) ||| (b1 <<< 8)
    [encodeAt ((val >>> 18) &&& 0x3F), encodeAt ((val >>> 12) &&& 0x3F),
      encodeAt ((val >>> 6) &&& 0x3F), '=']
  | [b0] =>
    let val := b0 <<< 16
    [encodeAt ((val >>> 18) &&& 0x3F), encodeAt ((val >>> 12) &&& 0x3F), '=', '=']
  | [] => []

/-- The call `strings.ReplaceAll(s, old, new)` for one-character `old` and `new`. -/
def ReplaceAll (s : List Char) (old new : Char) : List Char :=
  s.map (fun c => if c = old then new else c)

/-- How a call of `GenerateShortcode` can end without a code: with the error of
the random source, or with the run-time panic of a slice out of range. -/
inductive GenerateFailure where
  | randError
  | sliceOutOfRange
deriving DecidableEq, Repr

/-- The function `GenerateShortcode`.  The outcome of `rand.Read` is `none`
when the random source fails and `some f` when it fills the buffer, byte `i`
of the buffer being `f i % 256`. -/
def GenerateShortcode (length : Int) (rand : Option (Nat → Nat)) :
    Except GenerateFailure String :=
  let length := if length ≤ 0 then DefaultShortcodeLength else length
  match rand with
  | none => Except.error GenerateFailure.randError
  | some f =>
    let randomBytes := (List.range length.toNat).map (fun i => f i % 256)
    let encoded := EncodeToString randomBytes
    if length.toNat ≤ encoded.length then
      let shortcode := encoded.take length.toNat
      let shortcode := ReplaceAll shortcode '+' 'a'
      let shortcode := ReplaceAll shortcode '/' 'b'
      let shortcode := ReplaceAll shortcode '=' 'c'
      Except.ok (String.mk shortcode)
    else
      Except.error GenerateFailure.sliceOutOfRange

/-! ## Request handlers (`internal/api/handler.go`)

A handler is modelled by the response it writes and the store it leaves.  Of
`*http.Request` a handler sees the fields of `Request`; the JSON body arrives
decoded, `none` standing for a body that `Decode` rejects.  A response is the
status with the JSON document written (`respondWithJSON`, `respondWithError`,
whose `Details`, the text of a library error, is left out), the status alone
when the document cannot be encoded, or the status with the `Location` header
that `http.Redirect` writes.  The logger only observes and is left out.
Library functions that are not modelled are arguments of the handlers:
`url.ParseRequestURI` for `CreateShortURL`; for `GetURLStats` whether
`time.Time.MarshalJSON` succeeds on an instant (it fails for a year outside 0
to 9999); for `RedirectURL` the scheme and host that `url.Parse` finds, and
`path.Clean`.  The creation response carries an expiry within 292 years of the
clock reading and is taken to encode. -/

/-- The duration `time.Minute`, in nanoseconds. -/
def Minute : Int := 60000000000

/-- The method `t.Add(d)` for a duration `d` in nanoseconds (a 64-bit value, at
most about 292 years, which keeps an instant of the present far inside the
range of `time.Time`). -/
def Time.Add (t : Time) (d : Int) : Time := ⟨t.nanos + d⟩

/-- The constant `DefaultValidityMinutes`. -/
def DefaultValidityMinutes : Int := 30

/-- The struct `models.CreateShortURLRequest`; `Validity` is the `*int`. -/
structure CreateShortURLRequest where
  URL : String
  Validity : Option Int
  Shortcode : String
deriving DecidableEq, Repr

/-- The struct `models.CreateShortURLResponse`. -/
structure CreateShortURLResponse where
  ShortLink : String
  Expiry : Time
deriving DecidableEq, Repr

/-- The struct `models.URLStatsResponse`. -/
structure URLStatsResponse where
  Shortcode : String
  OriginalURL : String
  CreatedAt : Time
  ExpiresAt : Time
  Clicks : Int
  ClickData : List Click
deriving DecidableEq, Repr

/-- The struct `models.ErrorResponse`, without `Details`. -/
structure ErrorResponse where
  Error : String
  Code : Nat
deriving DecidableEq, Repr

/-- The fields of `*http.Request` read by the handlers. -/
structure Request where
  Path : String
  Host : String
  TLS : Bool
  Referer : String
  RemoteAddr : String
  UserAgent : String
  Body : Option CreateShortURLRequest
deriving DecidableEq, Repr

/-- What a handler writes: a JSON document with a status, a status with an
empty body (`WriteHeader` done, JSON encoding failed), a redirect with the
`Location` header written by `http.Redirect`, or nothing when it ends in a
run-time panic. -/
inductive Response where
  | error (status : Nat) (body : ErrorResponse)
  | created (status : Nat) (body : CreateShortURLResponse)
  | stats (status : Nat) (body : URLStatsResponse)
  | empty (status : Nat)
  | redirect (location : String) (status : Nat)
  | panicked
deriving DecidableEq, Repr

/-- The status code of a response. -/
def Response.status : Response → Option Nat
  | Response.error status _ => some status
  | Response.created status _ => some status
  | Response.stats status _ => some status
  | Response.empty status => some status
  | Response.redirect _ status => some status
  | Response.panicked => none

/-- The `Location` header of a response. -/
def Response.location : Response → Option String
  | Response.redirect location _ => some location
  | _ => none

/-- The UTF-8 bytes of a character. -/
def utf8Bytes (c : Char) : List Nat :=
  let n := c.toNat
  if n < 0x80 then [n]
  else if n < 0x800 then [0xC0 + n / 64, 0x80 + n % 64]
  else if n < 0x10000 then [0xE0 + n / 4096, 0x80 + n / 64 % 64, 0x80 + n % 64]
  else [0xF0 + n / 262144, 0x80 + n / 4096 % 64, 0x80 + n / 64 % 64, 0x80 + n % 64]

/-- A hexadecimal digit in lower case, as `strconv.AppendInt(b, v, 16)` writes it. -/
def hexDigit (d : Nat) : Char := "0123456789abcdef".data.getD d '0'

/-- The function `hexEscapeNonASCII` of `net/http`: every byte from 0x80 on
becomes `%` and its two hexadecimal digits, every other byte stays. -/
def hexEscapeNonASCII (s : String) : String :=
  String.mk (s.data.flatMap (fun c =>
    if c.toNat < 0x80 then [c]
    else (utf8Bytes c).flatMap (fun b => ['%', hexDigit (b / 16), hexDigit (b % 16)])))

/-- The directory part of `path.Split`: the path up to and including its last
slash. -/
def pathSplitDir (p : String) : String :=
  String.mk (p.data.reverse.dropWhile (fun c => c != '/')).reverse

/-- The `Location` header set by `http.Redirect(w, r, url, code)` for a request
with path `requestPath`.  `urlParse url` is the scheme and host found by
`url.Parse`, or `none` when it fails; `pathClean` is `path.Clean`.  A target
without scheme and host is made absolute against the request path and cleaned,
its query kept; the result is escaped by `hexEscapeNonASCII`. -/
def Redirect (urlParse : String → Option (String × String)) (pathClean : String → String)
    (requestPath : String) (url : String) : String :=
  let url :=
    match urlParse url with
    | none => url
    | some (scheme, host) =>
      if scheme = "" ∧ host = "" then
        let oldpath := if requestPath = "" then "/" else requestPath
        let url :=
          if url = "" ∨ url.data.head? ≠ some '/' then pathSplitDir oldpath ++ url else url
        let query := String.mk (url.data.dropWhile (fun c => c != '?'))
        let url := String.mk (url.data.takeWhile (fun c => c != '?'))
        let trailing := decide (url.data.getLast? = some '/')
        let url := pathClean url
        let url :=
          if trailing && !decide (url.data.getLast? = some '/') then url ++ "/" else url
        url ++ query
      else url
  hexEscapeNonASCII url

/-- The method `respondWithError`. -/
def respondWithError (status : Nat) (message : String) : Response :=
  Response.error status ⟨message, status⟩

/-- The function `strings.TrimPrefix`. -/
def TrimPrefix (s pre : String) : String :=
  if pre.data.isPrefixOf s.data then String.mk (s.data.drop pre.data.length) else s

/-- The function `getLocationFromIP`. -/
def getLocationFromIP (ip : String) : String := "Location from " ++ ip

/-- The struct `Handler`: the store it serves. -/
structure Handler where
  store : InMemoryURLStore

namespace Handler

/-- The method `CreateShortURL`, called when the clock reads `now`, with the
outcome `rand` of the random source and the library check `ParseRequestURI`
(`none` when the URL parses, the error otherwise). -/
def CreateShortURL (h : Handler) (now : Time) (rand : Option (Nat → Nat))
    (ParseRequestURI : String → Option String) (r : Request) : Response × Handler :=
  match r.Body with
  | none => (respondWithError 400 "Invalid request body", h)
  | some req =>
    if req.URL = "" then (respondWithError 400 "URL is required", h)
    else
      match ParseRequestURI req.URL with
      | some _ => (respondWithError 400 "Invalid URL format", h)
      | none =>
        let validityMinutes :=
          match req.Validity with
          | some v => if v > 0 then v else DefaultValidityMinutes
          | none => DefaultValidityMinutes
        let finish (h : Handler) (shortcode : String) : Response × Handler :=
          let shortURL : ShortURL :=
            { ID := shortcode
              OriginalURL := req.URL
              CreatedAt := now
              ExpiresAt := now.Add (wrapInt (validityMinutes * Minute))
              Clicks := 0
              ClickData := [] }
          match h.store.Create shortURL with
          | (some _, s) => (respondWithError 500 "Failed to create short URL", ⟨s⟩)
          | (none, s) =>
            let scheme := if r.TLS then "https" else "http"
            let shortLink := scheme ++ "://" ++ r.Host ++ "/" ++ shortcode
            (Response.created 201 ⟨shortLink, shortURL.ExpiresAt⟩, ⟨s⟩)
        if req.Shortcode = "" then
          match GenerateShortcode DefaultShortcodeLength rand with
          | Except.error GenerateFailure.randError =>
            (respondWithError 500 "Failed to generate shortcode", h)
          | Except.error GenerateFailure.sliceOutOfRange => (Response.panicked, h)
          | Except.ok shortcode => finish h shortcode
        else if ValidateShortcode req.Shortcode = false then
          (respondWithError 400 "Invalid shortcode format", h)
        else
          match h.store.ShortcodeExists req.Shortcode with
          | (true, s) => (respondWithError 409 "Shortcode already exists", ⟨s⟩)
          | (false, s) => finish ⟨s⟩ req.Shortcode

/-- The method `GetURLStats`, called when the clock reads `now`;
`timeMarshals t` tells whether `time.Time.MarshalJSON` succeeds on `t`.  The
method `respondWithJSON` writes the status and then the encoded document, or
nothing more when encoding fails. -/
def GetURLStats (h : Handler) (timeMarshals : Time → Bool) (now : Time) (r : Request) :
    Response × Handler :=
  let shortcode := TrimPrefix r.Path "/shorturls/"
  match h.store.Get now shortcode with
  | (Except.error StoreError.ErrShortcodeNotFound, s) =>
    (respondWithError 404 "Shortcode not found", ⟨s⟩)
  | (Except.error StoreError.ErrShortcodeExpired, s) =>
    (respondWithError 410 "Shortcode has expired", ⟨s⟩)
  | (Except.error _, s) => (respondWithError 500 "Failed to retrieve URL", ⟨s⟩)
  | (Except.ok shortURL, s) =>
    let resp : URLStatsResponse :=
      { Shortcode := shortURL.ID
        OriginalURL := shortURL.OriginalURL
        CreatedAt := shortURL.CreatedAt
        ExpiresAt := shortURL.ExpiresAt
        Clicks := shortURL.Clicks
        ClickData := shortURL.ClickData }
    if timeMarshals resp.CreatedAt && timeMarshals resp.ExpiresAt &&
        resp.ClickData.all (fun click => timeMarshals click.Timestamp) then
      (Response.stats 200 resp, ⟨s⟩)
    else
      (Response.empty 200, ⟨s⟩)

/-- The method `RedirectURL`: `now` is the clock reading of `Get`, `clickTime`
the later reading that stamps the click; `urlParse` and `pathClean` are the
library functions used by `http.Redirect`.  The third component is the
`RecordClick` call handed to the goroutine the handler starts and does not
wait for. -/
def RedirectURL (h : Handler) (urlParse : String → Option (String × String))
    (pathClean : String → String) (now clickTime : Time) (r : Request) :
    Response × Handler × Option (String × Click) :=
  let shortcode := TrimPrefix r.Path "/"
  match h.store.Get now shortcode with
  | (Except.error StoreError.ErrShortcodeNotFound, s) =>
    (respondWithError 404 "Shortcode not found", ⟨s⟩, none)
  | (Except.error StoreError.ErrShortcodeExpired, s) =>
    (respondWithError 410 "Shortcode has expired", ⟨s⟩, none)
  | (Except.error _, s) => (respondWithError 500 "Failed to retrieve URL", ⟨s⟩, none)
  | (Except.ok shortURL, s) =>
    let click : Click :=
      { Timestamp := clickTime
        Referrer := r.Referer
        Location := getLocationFromIP r.RemoteAddr
        UserAgent := r.UserAgent }
    (Response.redirect (Redirect urlParse pathClean r.Path shortURL.OriginalURL) 302, ⟨s⟩,
      some (shortcode, click))

end Handler

/-! ## Helper lemmas -/

theorem mapSet_same (m : String → Option ShortURL) (k : String) (v : ShortURL) :
    mapSet m k v k = some v := by
  simp [mapSet]

theorem mapSet_other (m : String → Option ShortURL) (k k' : String) (v : ShortURL)
    (h : k' ≠ k) : mapSet m k v k' = m k' := by
  simp [mapSet, h]

theorem after_eq_true_iff (t u : Time) : t.After u = true ↔ u.nanos < t.nanos := by
  simp [Time.After]

theorem wrapInt_of_inRange (x : Int) (h0 : -(2 ^ 63) ≤ x) (h1 : x < 2 ^ 63) :
    wrapInt x = x := by
  unfold wrapInt
  rw [Int.emod_eq_of_lt (by omega) (by omega)]
  omega

theorem wrapInt_succ_wrapInt (x : Int) : wrapInt (wrapInt x + 1) = wrapInt (x + 1) := by
  unfold wrapInt
  omega

theorem create_absent (s : InMemoryURLStore) (r : ShortURL) (h : s.urls r.ID = none) :
    s.Create r = (none, ⟨mapSet s.urls r.ID r⟩) := by
  simp [InMemoryURLStore.Create, h]

theorem create_present (s : InMemoryURLStore) (r r0 : ShortURL)
    (h : s.urls r.ID = some r0) :
    s.Create r = (some StoreError.ErrShortcodeExists, s) := by
  simp [InMemoryURLStore.Create, h]

theorem get_absent (s : InMemoryURLStore) (now : Time) (c : String)
    (h : s.urls c = none) :
    s.Get now c = (Except.error StoreError.ErrShortcodeNotFound, s) := by
  simp [InMemoryURLStore.Get, h]

theorem get_expired (s : InMemoryURLStore) (now : Time) (c : String) (r : ShortURL)
    (h : s.urls c = some r) (hexp : r.ExpiresAt.nanos < now.nanos) :
    s.Get now c = (Except.error StoreError.ErrShortcodeExpired, s) := by
  simp [InMemoryURLStore.Get, h, Time.After, hexp]

theorem get_live (s : InMemoryURLStore) (now : Time) (c : String) (r : ShortURL)
    (h : s.urls c = some r) (hlive : ¬ r.ExpiresAt.nanos < now.nanos) :
    s.Get now c = (Except.ok r, s) := by
  simp [InMemoryURLStore.Get, h, Time.After, hlive]

theorem get_store (s : InMemoryURLStore) (now : Time) (c : String) :
    (s.Get now c).2 = s := by
  unfold InMemoryURLStore.Get
  cases s.urls c with
  | none => rfl
  | some r => dsimp only; split <;> rfl

theorem recordClick_absent (s : InMemoryURLStore) (now : Time) (c : String) (e : Click)
    (h : s.urls c = none) :
    s.RecordClick now c e = (some StoreError.ErrShortcodeNotFound, s) := by
  simp [InMemoryURLStore.RecordClick, h]

theorem recordClick_expired (s : InMemoryURLStore) (now : Time) (c : String) (e : Click)
    (r : ShortURL) (h : s.urls c = some r) (hexp : r.ExpiresAt.nanos < now.nanos) :
    s.RecordClick now c e = (some StoreError.ErrShortcodeExpired, s) := by
  simp [InMemoryURLStore.RecordClick, h, Time.After, hexp]

theorem recordClick_live (s : InMemoryURLStore) (now : Time) (c : String) (e : Click)
    (r : ShortURL) (h : s.urls c = some r) (hlive : ¬ r.ExpiresAt.nanos < now.nanos) :
    s.RecordClick now c e =
      (none, ⟨mapSet s.urls c
        { r with Clicks := wrapInt (r.Clicks + 1), ClickData := r.ClickData ++ [e] }⟩) := by
  simp [InMemoryURLStore.RecordClick, h, Time.After, hlive]

/-! ## Create and Get -/

/-- C1 (as stated, refuted): `Create` stores the record it is given, click count
included, so for a record supplied with click count 5 the following `Get`
returns click count 5, not 0. -/
theorem create_get_clicks_counterexample :
    NewURLStore.urls "abc123" = none ∧
    (⟨0⟩ : Time).After ⟨60⟩ = false ∧
    (NewURLStore.Create ⟨"abc123", "https://example.com", ⟨0⟩, ⟨60⟩, 5, []⟩).1 = none ∧
    ((NewURLStore.Create ⟨"abc123", "https://example.com", ⟨0⟩, ⟨60⟩, 5, []⟩).2.Get
        ⟨0⟩ "abc123").1 =
      Except.ok ⟨"abc123", "https://example.com", ⟨0⟩, ⟨60⟩, 5, []⟩ ∧
    (⟨"abc123", "https://example.com", ⟨0⟩, ⟨60⟩, 5, []⟩ : ShortURL).Clicks ≠ 0 := by
  refine ⟨rfl, by decide, rfl, ?_, by decide⟩
  simp [InMemoryURLStore.Create, InMemoryURLStore.Get, NewURLStore, mapSet, Time.After]

/-- C1 (amended): for a record `r` whose shortcode is not yet a key of the store
and a current time not after `r.ExpiresAt`, `Create r` succeeds and the
following `Get r.ID` succeeds and returns exactly `r`: the same original URL,
creation time and expiry, and the click count and click list supplied in `r`,
so click count 0 when `r` was supplied with click count 0. -/
theorem create_then_get (s : InMemoryURLStore) (r : ShortURL) (now : Time)
    (habsent : s.urls r.ID = none) (hlive : now.After r.ExpiresAt = false) :
    (s.Create r).1 = none ∧
    ((s.Create r).2.Get now r.ID).1 = Except.ok r ∧
    (r.Clicks = 0 → ∃ r', ((s.Create r).2.Get now r.ID).1 = Except.ok r' ∧
      r'.OriginalURL = r.OriginalURL ∧ r'.CreatedAt = r.CreatedAt ∧
      r'.ExpiresAt = r.ExpiresAt ∧ r'.Clicks = 0) := by
  have hl : ¬ r.ExpiresAt.nanos < now.nanos := by
    intro h
    rw [(after_eq_true_iff _ _).2 h] at hlive
    exact Bool.noConfusion hlive
  have hget : ((s.Create r).2.Get now r.ID).1 = Except.ok r := by
    rw [create_absent s r habsent]
    exact congrArg Prod.fst (get_live _ _ _ _ (mapSet_same _ _ _) hl)
  refine ⟨by rw [create_absent s r habsent], hget, fun h0 => ⟨r, hget, rfl, rfl, rfl, h0⟩⟩

/-- Witness for C1 (amended) on the empty store. -/
theorem create_then_get_witness :
    (NewURLStore.Create ⟨"abc123", "https://example.com", ⟨0⟩, ⟨60⟩, 0, []⟩).1 = none ∧
    ((NewURLStore.Create ⟨"abc123", "https://example.com", ⟨0⟩, ⟨60⟩, 0, []⟩).2.Get
        ⟨60⟩ "abc123").1 =
      Except.ok ⟨"abc123", "https://example.com", ⟨0⟩, ⟨60⟩, 0, []⟩ :=
  have h := create_then_get NewURLStore ⟨"abc123", "https://example.com", ⟨0⟩, ⟨60⟩, 0, []⟩
    ⟨60⟩ rfl (by decide)
  ⟨h.1, h.2.1⟩

/-- C2: when the shortcode of `r1` is not yet present and `r2` has the same
shortcode, `Create r1` succeeds, the following `Create r2` fails with
`ErrShortcodeExists` and leaves the table unchanged, so the record stored under
the shortcode is still exactly `r1`.  In general `Create` fails, and then with
`ErrShortcodeExists`, exactly when the key is already present. -/
theorem create_twice (s : InMemoryURLStore) (r1 r2 : ShortURL)
    (habsent : s.urls r1.ID = none) (hsame : r2.ID = r1.ID) :
    (s.Create r1).1 = none ∧
    ((s.Create r1).2.Create r2).1 = some StoreError.ErrShortcodeExists ∧
    ((s.Create r1).2.Create r2).2 = (s.Create r1).2 ∧
    ((s.Create r1).2.Create r2).2.urls r1.ID = some r1 ∧
    (∀ (t : InMemoryURLStore) (r : ShortURL),
      ((t.Create r).1 = some StoreError.ErrShortcodeExists ↔ (t.urls r.ID).isSome = true) ∧
      ((t.Create r).1 ≠ none ↔ (t.urls r.ID).isSome = true)) := by
  have h2 : (s.Create r1).2.Create r2 =
      (some StoreError.ErrShortcodeExists, (s.Create r1).2) := by
    rw [create_absent s r1 habsent]
    exact create_present _ r2 r1 (by rw [hsame]; exact mapSet_same _ _ _)
  refine ⟨by rw [create_absent s r1 habsent], by rw [h2], by rw [h2], ?_, ?_⟩
  · rw [h2, create_absent s r1 habsent]
    exact mapSet_same _ _ _
  · intro t r
    cases h : t.urls r.ID with
    | none => simp [create_absent t r h]
    | some r0 => simp [create_present t r r0 h]

/-- Witness for C2: the shortcode "abc123" created twice on the empty store. -/
theorem create_twice_witness :
    (NewURLStore.Create ⟨"abc123", "https://example.com", ⟨0⟩, ⟨60⟩, 0, []⟩).1 = none ∧
    ((NewURLStore.Create ⟨"abc123", "https://example.com", ⟨0⟩, ⟨60⟩, 0, []⟩).2.Create
        ⟨"abc123", "https://other.example", ⟨5⟩, ⟨90⟩, 0, []⟩).1 =
      some StoreError.ErrShortcodeExists ∧
    ((NewURLStore.Create ⟨"abc123", "https://example.com", ⟨0⟩, ⟨60⟩, 0, []⟩).2.Create
        ⟨"abc123", "https://other.example", ⟨5⟩, ⟨90⟩, 0, []⟩).2.urls "abc123" =
      some ⟨"abc123", "https://example.com", ⟨0⟩, ⟨60⟩, 0, []⟩ :=
  have h := create_twice NewURLStore ⟨"abc123", "https://example.com", ⟨0⟩, ⟨60⟩, 0, []⟩
    ⟨"abc123", "https://other.example", ⟨5⟩, ⟨90⟩, 0, []⟩ rfl rfl
  ⟨h.1, h.2.1, h.2.2.2.1⟩

/-- C3: `Get` fails with `ErrShortcodeNotFound` exactly when the shortcode is not
a key of the table, fails with `ErrShortcodeExpired` exactly when it is a key
and `now` is strictly after the stored `ExpiresAt`, and otherwise (also when
`now` equals `ExpiresAt`) returns the stored record unchanged; it never
modifies the table. -/
theorem get_outcome (s : InMemoryURLStore) (now : Time) (c : String) :
    ((s.Get now c).1 = Except.error StoreError.ErrShortcodeNotFound ↔ s.urls c = none) ∧
    ((s.Get now c).1 = Except.error StoreError.ErrShortcodeExpired ↔
      ∃ r, s.urls c = some r ∧ r.ExpiresAt.nanos < now.nanos) ∧
    (∀ r, s.urls c = some r → now.nanos ≤ r.ExpiresAt.nanos →
      (s.Get now c).1 = Except.ok r) ∧
    (∀ r, s.urls c = some r → now = r.ExpiresAt → (s.Get now c).1 = Except.ok r) ∧
    (∀ r, (s.Get now c).1 = Except.ok r →
      s.urls c = some r ∧ now.nanos ≤ r.ExpiresAt.nanos) ∧
    (s.Get now c).2 = s := by
  cases h : s.urls c with
  | none =>
    rw [get_absent s now c h]
    simp
  | some r0 =>
    by_cases hexp : r0.ExpiresAt.nanos < now.nanos
    · rw [get_expired s now c r0 h hexp]
      refine ⟨by simp, by simp [hexp], ?_, ?_, by simp, rfl⟩
      · intro r hr hle
        cases hr
        omega
      · intro r hr hnow
        cases hr
        subst hnow
        omega
    · rw [get_live s now c r0 h hexp]
      refine ⟨by simp, by simp [hexp], ?_, ?_, ?_, rfl⟩
      · intro r hr _
        cases hr
        rfl
      · intro r hr _
        cases hr
        rfl
      · intro r hr
        cases hr
        exact ⟨rfl, by omega⟩

theorem read_congr (m m' : Memory) (v : Slice)
    (h : ∀ i, i < v.len → m'.cells (v.ptr + i) = m.cells (v.ptr + i)) :
    v.read m' = v.read m := by
  unfold Slice.read
  apply List.map_congr_left
  intro i hi
  exact h i (List.mem_range.1 hi)

theorem appendClick_cells_other (growCap : Nat → Nat) (m : Memory) (sl : Slice) (x : Click)
    (a : Nat) (h : appendWrites m sl a = false) :
    (appendClick growCap m sl x).2.cells a = m.cells a := by
  unfold appendWrites at h
  unfold appendClick
  by_cases hc : sl.len < sl.cap
  · simp only [if_pos hc, decide_eq_false_iff_not] at h
    simp only [if_pos hc, if_neg h]
  · simp only [if_neg hc, Bool.and_eq_false_iff, decide_eq_false_iff_not] at h
    simp only [if_neg hc]
    have h1 : ¬ (m.next ≤ a ∧ a < m.next + sl.len) := by omega
    have h2 : ¬ a = m.next + sl.len := by omega
    simp only [if_neg h1, if_neg h2]

theorem appendClick_read (growCap : Nat → Nat) (m : Memory) (sl : Slice) (x : Click) :
    (appendClick growCap m sl x).1.read (appendClick growCap m sl x).2 = sl.read m ++ [x] := by
  unfold appendClick
  by_cases hc : sl.len < sl.cap
  · simp only [if_pos hc, Slice.read, List.range_succ, List.map_append, List.map_cons,
      List.map_nil, if_true]
    congr 1
    apply List.map_congr_left
    intro i hi
    have hi' := List.mem_range.1 hi
    have hne : ¬ sl.ptr + i = sl.ptr + sl.len := by omega
    simp only [if_neg hne]
  · simp only [if_neg hc, Slice.read, List.range_succ, List.map_append, List.map_cons,
      List.map_nil]
    congr 1
    · apply List.map_congr_left
      intro i hi
      have hi' := List.mem_range.1 hi
      have h1 : m.next ≤ m.next + i ∧ m.next + i < m.next + sl.len := by omega
      simp only [if_pos h1, Nat.add_sub_cancel_left]
    · have h1 : ¬ (m.next ≤ m.next + sl.len ∧ m.next + sl.len < m.next + sl.len) := by omega
      simp only [if_neg h1, if_true]

theorem sliceRecordClick_live (growCap : Nat → Nat) (s : SliceURLStore) (now : Time)
    (c : String) (e : Click) (u : SliceShortURL) (h : s.urls c = some u)
    (hlive : ¬ u.ExpiresAt.nanos < now.nanos) :
    s.RecordClick growCap now c e =
      (none, ⟨fun k =>
        if k = c then
          some { u with
            Clicks := wrapInt (u.Clicks + 1)
            ClickData := (appendClick growCap s.mem u.ClickData e).1 }
        else s.urls k, (appendClick growCap s.mem u.ClickData e).2⟩) := by
  simp [SliceURLStore.RecordClick, h, Time.After, hlive]

/-- On a store in which no other record has a click event in a cell that the
append writes, `RecordClick` on headers and memory is `RecordClick` on values:
the same error, and the same table of values afterwards. -/
theorem sliceRecordClick_refines (growCap : Nat → Nat) (s : SliceURLStore) (now : Time)
    (c : String) (e : Click)
    (hsep : ∀ u, s.urls c = some u → ∀ k v, k ≠ c → s.urls k = some v →
      ∀ i, i < v.ClickData.len →
        appendWrites s.mem u.ClickData (v.ClickData.ptr + i) = false) :
    (s.RecordClick growCap now c e).1 = (s.value.RecordClick now c e).1 ∧
    (s.RecordClick growCap now c e).2.value = (s.value.RecordClick now c e).2 := by
  cases hu : s.urls c with
  | none =>
    have hv : s.value.urls c = none := by simp [SliceURLStore.value, hu]
    rw [recordClick_absent s.value now c e hv]
    simp [SliceURLStore.RecordClick, hu]
  | some u =>
    have hv : s.value.urls c = some (u.value s.mem) := by simp [SliceURLStore.value, hu]
    by_cases hexp : u.ExpiresAt.nanos < now.nanos
    · rw [recordClick_expired s.value now c e (u.value s.mem) hv hexp]
      simp [SliceURLStore.RecordClick, hu, Time.After, hexp]
    · rw [recordClick_live s.value now c e (u.value s.mem) hv hexp,
        sliceRecordClick_live growCap s now c e u hu hexp]
      refine ⟨rfl, ?_⟩
      show InMemoryURLStore.mk _ = InMemoryURLStore.mk _
      congr 1
      funext k
      by_cases hk : k = c
      · subst hk
        simp only [if_true, Option.map_some', mapSet_same]
        have hread := appendClick_read growCap s.mem u.ClickData e
        show some (SliceShortURL.value _ _) = some _
        unfold SliceShortURL.value
        simp only [hread]
      · rw [mapSet_other _ _ _ _ hk]
        simp only [if_neg hk]
        show (s.urls k).map _ = (s.urls k).map _
        cases hkv : s.urls k with
        | none => rfl
        | some v =>
          have hr : v.ClickData.read (appendClick growCap s.mem u.ClickData e).2 =
              v.ClickData.read s.mem :=
            read_congr _ _ _ (fun i hi =>
              appendClick_cells_other growCap s.mem u.ClickData e _
                (hsep u hu k v hk hkv i hi))
          show some (SliceShortURL.value _ v) = some (SliceShortURL.value _ v)
          unfold SliceShortURL.value
          rw [hr]

/-- C4 (as stated, refuted): two records created with one empty slice of
capacity 4 share its array; the click recorded on "first" is stored in cell 0,
and the next `RecordClick`, on "second", appends in place to the same cell, so
the record under the other key "first" is changed: its only click event is now
the one recorded on "second".  Also, on a record whose click count is the
largest value of Go's `int`, a successful `RecordClick` wraps the count to the
smallest value instead of making it one greater. -/
theorem recordClick_shared_array_counterexample :
    (((sharedArrayStore.RecordClick (fun c => 2 * c) ⟨1⟩ "first"
        ⟨⟨1⟩, "one", "", ""⟩).2.urls "first").map
      (SliceShortURL.value (sharedArrayStore.RecordClick (fun c => 2 * c) ⟨1⟩ "first"
        ⟨⟨1⟩, "one", "", ""⟩).2.mem)) =
      some ⟨"first", "https://example.com/1", ⟨0⟩, ⟨60⟩, 1, [⟨⟨1⟩, "one", "", ""⟩]⟩ ∧
    (((sharedArrayStore.RecordClick (fun c => 2 * c) ⟨1⟩ "first"
        ⟨⟨1⟩, "one", "", ""⟩).2.RecordClick (fun c => 2 * c) ⟨2⟩ "second"
        ⟨⟨2⟩, "two", "", ""⟩).1 = none) ∧
    (((((sharedArrayStore.RecordClick (fun c => 2 * c) ⟨1⟩ "first"
        ⟨⟨1⟩, "one", "", ""⟩).2.RecordClick (fun c => 2 * c) ⟨2⟩ "second"
        ⟨⟨2⟩, "two", "", ""⟩).2.urls "first").map
      (SliceShortURL.value ((sharedArrayStore.RecordClick (fun c => 2 * c) ⟨1⟩ "first"
        ⟨⟨1⟩, "one", "", ""⟩).2.RecordClick (fun c => 2 * c) ⟨2⟩ "second"
        ⟨⟨2⟩, "two", "", ""⟩).2.mem)) =
      some ⟨"first", "https://example.com/1", ⟨0⟩, ⟨60⟩, 1, [⟨⟨2⟩, "two", "", ""⟩]⟩) ∧
    ((((SliceURLStore.Create ⟨fun _ => none, ⟨fun _ => ⟨⟨0⟩, "", "", ""⟩, 0⟩⟩
        ⟨"abc123", "https://example.com", ⟨0⟩, ⟨60⟩, 9223372036854775807,
          ⟨0, 0, 0⟩⟩).2.RecordClick (fun c => 2 * c) ⟨1⟩ "abc123"
        ⟨⟨1⟩, "", "", ""⟩).2.urls "abc123").map SliceShortURL.Clicks =
      some (-9223372036854775808)) := by
  refine ⟨?_, ?_, ?_, ?_⟩ <;>
    simp [sharedArrayStore, SliceURLStore.Create, SliceURLStore.RecordClick, appendClick,
      SliceShortURL.value, Slice.read, Time.After, wrapInt, List.range_succ]

/-- C4 (amended): `RecordClick` fails with `ErrShortcodeNotFound` if the
shortcode is absent and with `ErrShortcodeExpired` if it is present and `now` is
after its `ExpiresAt`, leaving table and memory unchanged in both cases;
otherwise it succeeds, and the record under the shortcode afterwards has the
previous click list with the event appended as its last element, the same
shortcode, original URL, creation time and expiry, and a click count exactly
one greater provided the stored count was an `int` below the largest value
`2^63 - 1` (in general the 64-bit wrap of the count plus one); the table entry
under every other key is unchanged, and the click list of such an entry is
unchanged provided none of its elements lies in a cell that the append writes,
that is, unless it shares the array of the clicked record and reaches beyond
the end of that record's click list. -/
theorem recordClick_in_memory (growCap : Nat → Nat) (s : SliceURLStore) (now : Time)
    (c : String) (e : Click) :
    (s.urls c = none →
      s.RecordClick growCap now c e = (some StoreError.ErrShortcodeNotFound, s)) ∧
    (∀ u, s.urls c = some u → u.ExpiresAt.nanos < now.nanos →
      s.RecordClick growCap now c e = (some StoreError.ErrShortcodeExpired, s)) ∧
    (∀ u, s.urls c = some u → now.nanos ≤ u.ExpiresAt.nanos →
      (s.RecordClick growCap now c e).1 = none ∧
      (∃ u', (s.RecordClick growCap now c e).2.urls c = some u' ∧
        u'.ClickData.read (s.RecordClick growCap now c e).2.mem =
          u.ClickData.read s.mem ++ [e] ∧
        (u'.ClickData.read (s.RecordClick growCap now c e).2.mem).getLast? = some e ∧
        u'.ClickData.len = u.ClickData.len + 1 ∧
        u'.ID = u.ID ∧ u'.OriginalURL = u.OriginalURL ∧
        u'.CreatedAt = u.CreatedAt ∧ u'.ExpiresAt = u.ExpiresAt ∧
        u'.Clicks = wrapInt (u.Clicks + 1) ∧
        (-(2 ^ 63) ≤ u.Clicks → u.Clicks < maxInt → u'.Clicks = u.Clicks + 1)) ∧
      (∀ k, k ≠ c → (s.RecordClick growCap now c e).2.urls k = s.urls k) ∧
      (∀ k v, k ≠ c → s.urls k = some v →
        (∀ i, i < v.ClickData.len →
          appendWrites s.mem u.ClickData (v.ClickData.ptr + i) = false) →
        v.value (s.RecordClick growCap now c e).2.mem = v.value s.mem)) := by
  refine ⟨?_, ?_, ?_⟩
  · intro h
    simp [SliceURLStore.RecordClick, h]
  · intro u h hexp
    simp [SliceURLStore.RecordClick, h, Time.After, hexp]
  · intro u hu hle
    rw [sliceRecordClick_live growCap s now c e u hu (by omega)]
    have hread := appendClick_read growCap s.mem u.ClickData e
    refine ⟨rfl, ⟨_, if_pos rfl, hread, ?_, ?_, rfl, rfl, rfl, rfl, rfl, ?_⟩, ?_, ?_⟩
    · show (Slice.read _ _).getLast? = some e
      rw [hread]
      simp
    · show (appendClick growCap s.mem u.ClickData e).1.len = u.ClickData.len + 1
      unfold appendClick
      split <;> rfl
    · intro h0 h1
      unfold maxInt at h1
      exact wrapInt_of_inRange _ (by omega) (by omega)
    · intro k hk
      exact if_neg hk
    · intro k v _ _ hsep
      have hr : v.ClickData.read (appendClick growCap s.mem u.ClickData e).2 =
          v.ClickData.read s.mem :=
        read_congr _ _ _ (fun i hi => appendClick_cells_other growCap s.mem u.ClickData e _
          (hsep i hi))
      show SliceShortURL.value _ v = SliceShortURL.value _ v
      unfold SliceShortURL.value
      rw [hr]

/-- Witness for C4 (amended): one click on "first" when the two records have
arrays of their own; "first" gains the event and count 1, "second" keeps its
click list of one event. -/
theorem recordClick_in_memory_witness :
    (∃ u', (separateArraysStore.RecordClick (fun c => 2 * c) ⟨1⟩ "first"
        ⟨⟨1⟩, "ref", "loc", "ua"⟩).2.urls "first" = some u' ∧
      u'.ClickData.read (separateArraysStore.RecordClick (fun c => 2 * c) ⟨1⟩ "first"
        ⟨⟨1⟩, "ref", "loc", "ua"⟩).2.mem = [⟨⟨1⟩, "ref", "loc", "ua"⟩] ∧
      u'.Clicks = 1) ∧
    (⟨"second", "https://example.com/2", ⟨0⟩, ⟨60⟩, 1, ⟨4, 1, 4⟩⟩ : SliceShortURL).value
      (separateArraysStore.RecordClick (fun c => 2 * c) ⟨1⟩ "first"
        ⟨⟨1⟩, "ref", "loc", "ua"⟩).2.mem =
      ⟨"second", "https://example.com/2", ⟨0⟩, ⟨60⟩, 1, [⟨⟨0⟩, "seen", "", ""⟩]⟩ := by
  obtain ⟨-, ⟨u', h1, h2, -, -, -, -, -, -, -, h3⟩, -, h4⟩ :=
    (recordClick_in_memory (fun c => 2 * c) separateArraysStore ⟨1⟩ "first"
      ⟨⟨1⟩, "ref", "loc", "ua"⟩).2.2
      ⟨"first", "https://example.com/1", ⟨0⟩, ⟨60⟩, 0, ⟨0, 0, 4⟩⟩
      (by simp [separateArraysStore, SliceURLStore.Create]) (by decide)
  refine ⟨⟨u', h1, ?_, h3 (by decide) (by decide)⟩, ?_⟩
  · rw [h2]
    simp [Slice.read]
  · rw [h4 "second" ⟨"second", "https://example.com/2", ⟨0⟩, ⟨60⟩, 1, ⟨4, 1, 4⟩⟩ (by decide)
      (by simp [separateArraysStore, SliceURLStore.Create])
      (by intro i _; simp [appendWrites])]
    simp [SliceShortURL.value, Slice.read, separateArraysStore, SliceURLStore.Create,
      List.range_succ]

/-! ## Sequences of clicks -/

theorem recordClicks_live (calls : List (Time × Click)) :
    ∀ (s : InMemoryURLStore) (c : String) (r : ShortURL) (x : Int),
      s.urls c = some r →
      (∀ p ∈ calls, p.1.nanos ≤ r.ExpiresAt.nanos) →
      r.Clicks = wrapInt x →
      (recordClicks s c calls).1 = List.replicate calls.length none ∧
      (recordClicks s c calls).2.urls c =
        some { r with
          Clicks := wrapInt (x + calls.length)
          ClickData := r.ClickData ++ calls.map Prod.snd } := by
  induction calls with
  | nil =>
    intro s c r x hr _ hx
    simp [recordClicks, hr, ← hx]
  | cons p rest ih =>
    intro s c r x hr hlive hx
    obtain ⟨now, e⟩ := p
    have hnow : now.nanos ≤ r.ExpiresAt.nanos := hlive (now, e) (List.mem_cons_self _ _)
    have hlen : ((rest.length + 1 : Nat) : Int) = (rest.length : Int) + 1 := by push_cast; rfl
    have hstep := recordClick_live s now c e r hr (by omega)
    have hih := ih (s.RecordClick now c e).2 c
      { r with Clicks := wrapInt (r.Clicks + 1), ClickData := r.ClickData ++ [e] } (x + 1)
      (by rw [hstep]; exact mapSet_same _ _ _)
      (fun q hq => hlive q (List.mem_cons_of_mem _ hq))
      (by show wrapInt (r.Clicks + 1) = wrapInt (x + 1); rw [hx, wrapInt_succ_wrapInt])
    refine ⟨?_, ?_⟩
    · simp only [recordClicks, List.length_cons, List.replicate_succ]
      rw [hih.1, hstep]
    · simp only [recordClicks]
      rw [hih.2]
      simp only [List.length_cons, List.map_cons, hlen, List.append_assoc,
        List.singleton_append]
      congr 3
      omega

/-- C5: on a shortcode whose record has click count 0 and an empty click list,
every sequence of N `RecordClick` calls made while the record is unexpired
succeeds N times, and a `Get` afterwards returns a click list of exactly N
entries, the supplied events, each once, in call order, and click count N (as
a 64-bit `int`: it is N for every N up to `2^63 - 1`, beyond which no Go slice
can grow). -/
theorem recordClicks_count (s : InMemoryURLStore) (c : String) (r : ShortURL)
    (calls : List (Time × Click)) (now : Time)
    (hr : s.urls c = some r) (hzero : r.Clicks = 0) (hempty : r.ClickData = [])
    (hlive : ∀ p ∈ calls, p.1.nanos ≤ r.ExpiresAt.nanos)
    (hnow : now.nanos ≤ r.ExpiresAt.nanos) :
    (recordClicks s c calls).1 = List.replicate calls.length none ∧
    ∃ r', ((recordClicks s c calls).2.Get now c).1 = Except.ok r' ∧
      r'.ClickData = calls.map Prod.snd ∧
      r'.ClickData.length = calls.length ∧
      r'.Clicks = wrapInt calls.length ∧
      ((calls.length : Int) ≤ maxInt → r'.Clicks = calls.length) := by
  obtain ⟨h1, h2⟩ := recordClicks_live calls s c r 0 hr hlive
    (by rw [hzero]; exact (wrapInt_of_inRange 0 (by omega) (by omega)).symm)
  refine ⟨h1, _, congrArg Prod.fst
    (get_live _ now c _ h2 (by show ¬ r.ExpiresAt.nanos < now.nanos; omega)), ?_, ?_, ?_, ?_⟩
  · show r.ClickData ++ calls.map Prod.snd = calls.map Prod.snd
    rw [hempty, List.nil_append]
  · show (r.ClickData ++ calls.map Prod.snd).length = calls.length
    rw [hempty, List.nil_append, List.length_map]
  · show wrapInt (0 + (calls.length : Int)) = wrapInt calls.length
    rw [Int.zero_add]
  · intro hle
    unfold maxInt at hle
    show wrapInt (0 + (calls.length : Int)) = calls.length
    rw [Int.zero_add]
    exact wrapInt_of_inRange _ (by omega) (by omega)

/-- Witness for C5: three `RecordClick` calls on "abc123" give click count 3. -/
theorem recordClicks_count_witness :
    ∃ r', ((recordClicks
        (NewURLStore.Create ⟨"abc123", "https://example.com", ⟨0⟩, ⟨60⟩, 0, []⟩).2 "abc123"
        [(⟨1⟩, ⟨⟨1⟩, "a", "", ""⟩), (⟨2⟩, ⟨⟨2⟩, "b", "", ""⟩),
          (⟨3⟩, ⟨⟨3⟩, "c", "", ""⟩)]).2.Get ⟨4⟩ "abc123").1 = Except.ok r' ∧
      r'.Clicks = 3 ∧
      r'.ClickData = [⟨⟨1⟩, "a", "", ""⟩, ⟨⟨2⟩, "b", "", ""⟩, ⟨⟨3⟩, "c", "", ""⟩] := by
  obtain ⟨-, r', h1, h2, -, -, h3⟩ := recordClicks_count
    (NewURLStore.Create ⟨"abc123", "https://example.com", ⟨0⟩, ⟨60⟩, 0, []⟩).2 "abc123"
    ⟨"abc123", "https://example.com", ⟨0⟩, ⟨60⟩, 0, []⟩
    [(⟨1⟩, ⟨⟨1⟩, "a", "", ""⟩), (⟨2⟩, ⟨⟨2⟩, "b", "", ""⟩), (⟨3⟩, ⟨⟨3⟩, "c", "", ""⟩)]
    ⟨4⟩ (by rfl) rfl rfl (by decide) (by decide)
  exact ⟨r', h1, h3 (by decide), h2⟩

/-! ## Existence check -/

/-- C6: `ShortcodeExists` is true exactly when the shortcode is a key of the
table, whatever the expiry of the record (it does not read the clock) and
without changing the table; when the table holds an expired record under the
shortcode, `Get` fails with `ErrShortcodeExpired` while `ShortcodeExists` is
true and `Create` of any record with that shortcode fails with
`ErrShortcodeExists` and leaves the table as it is. -/
theorem shortcodeExists_ignores_expiry (s : InMemoryURLStore) (c : String) :
    ((s.ShortcodeExists c).1 = true ↔ ∃ r, s.urls c = some r) ∧
    (s.ShortcodeExists c).2 = s ∧
    (∀ (r : ShortURL) (now : Time), s.urls c = some r → r.ExpiresAt.nanos < now.nanos →
      (s.Get now c).1 = Except.error StoreError.ErrShortcodeExpired ∧
      (s.ShortcodeExists c).1 = true ∧
      ∀ r2 : ShortURL, r2.ID = c →
        s.Create r2 = (some StoreError.ErrShortcodeExists, s)) := by
  refine ⟨?_, rfl, ?_⟩
  · simp [InMemoryURLStore.ShortcodeExists, Option.isSome_iff_exists]
  · intro r now hr hexp
    refine ⟨by rw [get_expired s now c r hr hexp], ?_, ?_⟩
    · simp [InMemoryURLStore.ShortcodeExists, hr]
    · intro r2 h2
      exact create_present s r2 r (by rw [h2]; exact hr)

/-! ## Shortcode validation -/

theorem matchClassPlusEnd_iff (cls : Char → Bool) (cs : List Char) :
    matchClassPlusEnd cls cs = true ↔ cs ≠ [] ∧ ∀ c ∈ cs, cls c = true := by
  induction cs with
  | nil => simp [matchClassPlusEnd]
  | cons a rest ih =>
    cases rest with
    | nil => simp [matchClassPlusEnd]
    | cons b rest' =>
      simp only [matchClassPlusEnd, Bool.and_eq_true, ih]
      simp

theorem shortcodeClass_iff (c : Char) :
    shortcodeClass c = true ↔
      ('A' ≤ c ∧ c ≤ 'Z') ∨ ('a' ≤ c ∧ c ≤ 'z') ∨ ('0' ≤ c ∧ c ≤ '9') ∨ c = '_' ∨ c = '-' := by
  simp only [shortcodeClass, Bool.or_eq_true, Bool.and_eq_true, decide_eq_true_eq,
    beq_iff_eq]
  tauto

theorem shortcodeClass_utf8Size (c : Char) (h : shortcodeClass c = true) :
    c.utf8Size = 1 := by
  have h127 : c.val ≤ 127 := by
    rcases (shortcodeClass_iff c).1 h with h | h | h | h | h
    · exact UInt32.le_trans (show c.val ≤ 90 from h.2) (by decide)
    · exact UInt32.le_trans (show c.val ≤ 122 from h.2) (by decide)
    · exact UInt32.le_trans (show c.val ≤ 57 from h.2) (by decide)
    · subst h; decide
    · subst h; decide
  simp [Char.utf8Size, h127]

theorem utf8ByteSize_go_ge (cs : List Char) : cs.length ≤ String.utf8ByteSize.go cs := by
  induction cs with
  | nil => simp [String.utf8ByteSize.go]
  | cons a rest ih =>
    have := Char.utf8Size_pos a
    simp only [String.utf8ByteSize.go, List.length_cons]
    omega

theorem utf8ByteSize_go_class (cs : List Char) (h : ∀ c ∈ cs, shortcodeClass c = true) :
    String.utf8ByteSize.go cs = cs.length := by
  induction cs with
  | nil => simp [String.utf8ByteSize.go]
  | cons a rest ih =>
    have ha := shortcodeClass_utf8Size a (h a (List.mem_cons_self _ _))
    have hr := ih (fun c hc => h c (List.mem_cons_of_mem _ hc))
    simp only [String.utf8ByteSize.go, List.length_cons, ha, hr]

theorem validateShortcode_eq_true (s : String) :
    ValidateShortcode s = true ↔
      s ≠ "" ∧ s.utf8ByteSize ≤ 12 ∧ ∀ c ∈ s.data, shortcodeClass c = true := by
  have hne : s = "" ↔ s.data = [] := by
    rw [String.ext_iff]
  unfold ValidateShortcode ValidShortcodePattern_MatchString MaxShortcodeLength
  by_cases h1 : s = ""
  · simp [h1]
  · by_cases h2 : s.utf8ByteSize > 12
    · simp only [if_neg h1, if_pos h2]
      constructor
      · intro h; exact Bool.noConfusion h
      · intro h; omega
    · simp only [if_neg h1, if_neg h2, matchClassPlusEnd_iff]
      constructor
      · intro h
        exact ⟨h1, by omega, h.2⟩
      · intro h
        exact ⟨fun hd => h1 (hne.2 hd), h.2.2⟩

/-- C7: `ValidateShortcode s` is true if and only if `s` is non-empty, has
length at most 12 (counted in characters or, as the code does, in bytes) and
every character of `s` is one of A-Z, a-z, 0-9, `_` or `-`; it is false for the
empty string, for every string longer than 12 and for every string with any
other character, such as a trailing newline or a non-ASCII letter. -/
theorem validateShortcode_iff (s : String) :
    (ValidateShortcode s = true ↔
      s ≠ "" ∧ s.length ≤ 12 ∧
      ∀ c ∈ s.data, ('A' ≤ c ∧ c ≤ 'Z') ∨ ('a' ≤ c ∧ c ≤ 'z') ∨ ('0' ≤ c ∧ c ≤ '9') ∨
        c = '_' ∨ c = '-') ∧
    (ValidateShortcode s = true ↔
      s ≠ "" ∧ s.utf8ByteSize ≤ 12 ∧
      ∀ c ∈ s.data, ('A' ≤ c ∧ c ≤ 'Z') ∨ ('a' ≤ c ∧ c ≤ 'z') ∨ ('0' ≤ c ∧ c ≤ '9') ∨
        c = '_' ∨ c = '-') ∧
    ValidateShortcode "" = false ∧
    (12 < s.length → ValidateShortcode s = false) ∧
    ((∃ c ∈ s.data, ¬ (('A' ≤ c ∧ c ≤ 'Z') ∨ ('a' ≤ c ∧ c ≤ 'z') ∨ ('0' ≤ c ∧ c ≤ '9') ∨
        c = '_' ∨ c = '-')) → ValidateShortcode s = false) ∧
    ValidateShortcode "abc123\n" = false ∧
    ValidateShortcode "café" = false := by
  have hbytes : s.length ≤ s.utf8ByteSize := utf8ByteSize_go_ge s.data
  have hcls : (∀ c ∈ s.data, shortcodeClass c = true) ↔
      ∀ c ∈ s.data, ('A' ≤ c ∧ c ≤ 'Z') ∨ ('a' ≤ c ∧ c ≤ 'z') ∨ ('0' ≤ c ∧ c ≤ '9') ∨
        c = '_' ∨ c = '-' :=
    forall₂_congr (fun c _ => shortcodeClass_iff c)
  have hb : ValidateShortcode s = true ↔
      s ≠ "" ∧ s.utf8ByteSize ≤ 12 ∧
      ∀ c ∈ s.data, ('A' ≤ c ∧ c ≤ 'Z') ∨ ('a' ≤ c ∧ c ≤ 'z') ∨ ('0' ≤ c ∧ c ≤ '9') ∨
        c = '_' ∨ c = '-' := by
    rw [validateShortcode_eq_true, hcls]
  have hl : ValidateShortcode s = true ↔
      s ≠ "" ∧ s.length ≤ 12 ∧
      ∀ c ∈ s.data, ('A' ≤ c ∧ c ≤ 'Z') ∨ ('a' ≤ c ∧ c ≤ 'z') ∨ ('0' ≤ c ∧ c ≤ '9') ∨
        c = '_' ∨ c = '-' := by
    rw [hb]
    constructor
    · intro h
      exact ⟨h.1, le_trans hbytes h.2.1, h.2.2⟩
    · intro h
      have heq : s.utf8ByteSize = s.length := utf8ByteSize_go_class s.data (hcls.2 h.2.2)
      exact ⟨h.1, by omega, h.2.2⟩
  refine ⟨hl, hb, by decide, ?_, ?_, by decide, by decide⟩
  · intro hlong
    cases hv : ValidateShortcode s with
    | false => rfl
    | true => have := (hl.1 hv).2.1; omega
  · rintro ⟨c, hc, hbad⟩
    cases hv : ValidateShortcode s with
    | false => rfl
    | true => exact absurd ((hl.1 hv).2.2 c hc) hbad

/-! ## Shortcode generation -/

theorem encodeAt_class : ∀ i, i < 64 → shortcodeClass (encodeAt i) = true := by
  decide

theorem encodeAt_low6 (v : Nat) : shortcodeClass (encodeAt (v &&& 0x3F)) = true :=
  encodeAt_class _ (Nat.lt_succ_of_le Nat.and_le_right)

theorem shortcodeClass_not_replaced (c : Char) (h : shortcodeClass c = true) :
    c ≠ '+' ∧ c ≠ '/' ∧ c ≠ '=' := by
  refine ⟨?_, ?_, ?_⟩ <;>
  · rintro rfl
    revert h
    decide

theorem encodeToString_length_ge (bs : List Nat) : bs.length ≤ (EncodeToString bs).length := by
  induction bs using EncodeToString.induct with
  | case1 b0 b1 b2 rest ih =>
    simp only [EncodeToString, List.length_cons]
    omega
  | case2 b0 b1 => simp [EncodeToString]
  | case3 b0 => simp [EncodeToString]
  | case4 => simp [EncodeToString]

theorem encodeToString_take_class (bs : List Nat) :
    ∀ k, k ≤ bs.length → ∀ c ∈ (EncodeToString bs).take k, shortcodeClass c = true := by
  induction bs using EncodeToString.induct with
  | case1 b0 b1 b2 rest ih =>
    intro k hk c hc
    simp only [EncodeToString] at hc
    match k, hk, hc with
    | 0, _, hc => simp at hc
    | 1, _, hc =>
      simp only [List.take_succ_cons, List.take_zero, List.mem_singleton] at hc
      subst hc; exact encodeAt_low6 _
    | 2, _, hc =>
      simp only [List.take_succ_cons, List.take_zero, List.mem_cons, List.mem_singleton,
        List.not_mem_nil, or_false] at hc
      rcases hc with hc | hc <;> (subst hc; exact encodeAt_low6 _)
    | k + 3, hk, hc =>
      simp only [List.take_succ_cons, List.mem_cons] at hc
      rcases hc with hc | hc | hc | hc
      · subst hc; exact encodeAt_low6 _
      · subst hc; exact encodeAt_low6 _
      · subst hc; exact encodeAt_low6 _
      · cases k with
        | zero => simp at hc
        | succ j =>
          simp only [List.take_succ_cons, List.mem_cons] at hc
          rcases hc with hc | hc
          · subst hc; exact encodeAt_low6 _
          · simp only [List.length_cons] at hk
            exact ih j (by omega) c hc
  | case2 b0 b1 =>
    intro k hk c hc
    simp only [EncodeToString] at hc
    simp only [List.length_cons, List.length_nil] at hk
    match k, hk, hc with
    | 0, _, hc => simp at hc
    | 1, _, hc =>
      simp only [List.take_succ_cons, List.take_zero, List.mem_singleton] at hc
      subst hc; exact encodeAt_low6 _
    | 2, _, hc =>
      simp only [List.take_succ_cons, List.take_zero, List.mem_cons, List.mem_singleton,
        List.not_mem_nil, or_false] at hc
      rcases hc with hc | hc <;> (subst hc; exact encodeAt_low6 _)
  | case3 b0 =>
    intro k hk c hc
    simp only [EncodeToString] at hc
    simp only [List.length_cons, List.length_nil] at hk
    match k, hk, hc with
    | 0, _, hc => simp at hc
    | 1, _, hc =>
      simp only [List.take_succ_cons, List.take_zero, List.mem_singleton] at hc
      subst hc; exact encodeAt_low6 _
  | case4 =>
    intro k _ c hc
    simp [EncodeToString] at hc

theorem replaceAll_of_absent (cs : List Char) (old new : Char) (h : ∀ c ∈ cs, c ≠ old) :
    ReplaceAll cs old new = cs := by
  unfold ReplaceAll
  induction cs with
  | nil => rfl
  | cons a rest ih =>
    have ha : a ≠ old := h a (List.mem_cons_self _ _)
    simp only [List.map_cons, if_neg ha]
    rw [ih (fun c hc => h c (List.mem_cons_of_mem _ hc))]

/-- C8: for every requested length and every outcome of the random source that
does not fail, `GenerateShortcode` returns a code (the slice `encoded[:length]`
is in range, the encoding of `n` bytes having at least `n` characters) of
exactly `n` characters, `n` being the requested length when it is positive and
6 otherwise; the code is the first `n` characters of the URL-safe base64
encoding of the random bytes, none of which is `=`, `+` or `/`, and all of which
lie in `[A-Za-z0-9_-]`; an error is returned only when the random source
fails. -/
theorem generateShortcode_ok (length : Int) (f : Nat → Nat) :
    (∃ code, GenerateShortcode length (some f) = Except.ok code ∧
      (code.length : Int) = (if length ≤ 0 then 6 else length) ∧
      (if length ≤ 0 then 6 else length).toNat ≤
        (EncodeToString ((List.range (if length ≤ 0 then 6 else length).toNat).map
          (fun i => f i % 256))).length ∧
      code.data = (EncodeToString ((List.range (if length ≤ 0 then 6 else length).toNat).map
          (fun i => f i % 256))).take (if length ≤ 0 then 6 else length).toNat ∧
      (∀ c ∈ code.data, c ≠ '=' ∧ c ≠ '+' ∧ c ≠ '/') ∧
      (∀ c ∈ code.data, ('A' ≤ c ∧ c ≤ 'Z') ∨ ('a' ≤ c ∧ c ≤ 'z') ∨ ('0' ≤ c ∧ c ≤ '9') ∨
        c = '_' ∨ c = '-')) ∧
    GenerateShortcode length none = Except.error GenerateFailure.randError ∧
    (∀ rand e, GenerateShortcode length rand = Except.error e →
      rand = none ∧ e = GenerateFailure.randError) := by
  have key : ∀ g : Nat → Nat,
      GenerateShortcode length (some g) =
        Except.ok (String.mk ((EncodeToString
          ((List.range (if length ≤ 0 then 6 else length).toNat).map
            (fun i => g i % 256))).take (if length ≤ 0 then 6 else length).toNat)) ∧
      ∀ c ∈ (EncodeToString ((List.range (if length ≤ 0 then 6 else length).toNat).map
            (fun i => g i % 256))).take (if length ≤ 0 then 6 else length).toNat,
        shortcodeClass c = true := by
    intro g
    generalize hn : (if length ≤ 0 then (6 : Int) else length) = n
    have hlen : ((List.range n.toNat).map (fun i => g i % 256)).length = n.toNat := by simp
    have hge : n.toNat ≤ (EncodeToString ((List.range n.toNat).map
        (fun i => g i % 256))).length := by
      have := encodeToString_length_ge ((List.range n.toNat).map (fun i => g i % 256))
      omega
    have hcls := encodeToString_take_class ((List.range n.toNat).map (fun i => g i % 256))
      n.toNat (by omega)
    refine ⟨?_, hcls⟩
    unfold GenerateShortcode DefaultShortcodeLength
    simp only [hn, if_pos hge]
    rw [replaceAll_of_absent _ '+' 'a' (fun c hc => (shortcodeClass_not_replaced c (hcls c hc)).1),
      replaceAll_of_absent _ '/' 'b' (fun c hc => (shortcodeClass_not_replaced c (hcls c hc)).2.1),
      replaceAll_of_absent _ '=' 'c' (fun c hc => (shortcodeClass_not_replaced c (hcls c hc)).2.2)]
  refine ⟨?_, rfl, ?_⟩
  · obtain ⟨hok, hcls⟩ := key f
    have hge := encodeToString_length_ge
      ((List.range (if length ≤ 0 then 6 else length).toNat).map (fun i => f i % 256))
    simp only [List.length_map, List.length_range] at hge
    refine ⟨_, hok, ?_, hge, rfl, ?_, ?_⟩
    · show ((List.take _ _).length : Int) = _
      rw [List.length_take, Nat.min_eq_left hge]
      split <;> omega
    · intro c hc
      have := shortcodeClass_not_replaced c (hcls c hc)
      exact ⟨this.2.2, this.1, this.2.1⟩
    · intro c hc
      exact (shortcodeClass_iff c).1 (hcls c hc)
  · intro rand e he
    cases rand with
    | none =>
      refine ⟨rfl, ?_⟩
      have h0 : GenerateShortcode length none = Except.error GenerateFailure.randError := rfl
      rw [h0] at he
      cases he
      rfl
    | some g =>
      rw [(key g).1] at he
      cases he

/-! ## Invariants of reachable tables -/

theorem stepStore_counted (s : InMemoryURLStore) (call : Call)
    (hinv : ∀ k r, s.urls k = some r → r.Clicks = wrapInt r.ClickData.length)
    (harg : suppliesCountedRecord call.op = true) :
    ∀ k r, (stepStore s call).urls k = some r → r.Clicks = wrapInt r.ClickData.length := by
  have hset : ∀ (key : String) (v : ShortURL), v.Clicks = wrapInt v.ClickData.length →
      ∀ k r, mapSet s.urls key v k = some r → r.Clicks = wrapInt r.ClickData.length := by
    intro key v hv k r hk
    unfold mapSet at hk
    split at hk
    · cases hk
      exact hv
    · exact hinv k r hk
  have hsupplied : ∀ v : ShortURL, v.Clicks = (v.ClickData.length : Int) → v.Clicks ≤ maxInt →
      v.Clicks = wrapInt v.ClickData.length := by
    intro v h1 h2
    unfold maxInt at h2
    rw [← h1]
    exact (wrapInt_of_inRange _ (by omega) (by omega)).symm
  obtain ⟨now, op⟩ := call
  cases op with
  | Create v =>
    simp only [suppliesCountedRecord, Bool.and_eq_true, decide_eq_true_eq] at harg
    simp only [stepStore, InMemoryURLStore.Create]
    cases hv : s.urls v.ID with
    | none => exact hset v.ID v (hsupplied v harg.1 harg.2)
    | some r0 => exact hinv
  | Get c =>
    simp only [stepStore, get_store]
    exact hinv
  | Update v =>
    simp only [suppliesCountedRecord, Bool.and_eq_true, decide_eq_true_eq] at harg
    simp only [stepStore, InMemoryURLStore.Update]
    cases hv : s.urls v.ID with
    | none => exact hinv
    | some r0 => exact hset v.ID v (hsupplied v harg.1 harg.2)
  | Delete c =>
    simp only [stepStore, InMemoryURLStore.Delete]
    cases hc : s.urls c with
    | none => exact hinv
    | some r0 =>
      intro k r hk
      simp only [mapDelete] at hk
      split at hk
      · cases hk
      · exact hinv k r hk
  | RecordClick c e =>
    simp only [stepStore]
    cases hc : s.urls c with
    | none =>
      rw [recordClick_absent s now c e hc]
      exact hinv
    | some r0 =>
      by_cases hexp : r0.ExpiresAt.nanos < now.nanos
      · rw [recordClick_expired s now c e r0 hc hexp]
        exact hinv
      · rw [recordClick_live s now c e r0 hc hexp]
        apply hset
        show wrapInt (r0.Clicks + 1) = wrapInt ((r0.ClickData ++ [e]).length : Int)
        rw [hinv c r0 hc, wrapInt_succ_wrapInt]
        simp
  | ShortcodeExists c => exact hinv

theorem runCalls_counted (calls : List Call) :
    ∀ s : InMemoryURLStore,
      (∀ k r, s.urls k = some r → r.Clicks = wrapInt r.ClickData.length) →
      (∀ call ∈ calls, suppliesCountedRecord call.op = true) →
      ∀ k r, (runCalls s calls).urls k = some r → r.Clicks = wrapInt r.ClickData.length := by
  induction calls with
  | nil => intro s hinv _; exact hinv
  | cons call rest ih =>
    intro s hinv hargs
    exact ih (stepStore s call)
      (stepStore_counted s call hinv (hargs call (List.mem_cons_self _ _)))
      (fun c hc => hargs c (List.mem_cons_of_mem _ hc))

/-- C9 (as stated, refuted): `Create` stores its argument as it is, so one
`Create` of a record with click count 1 and an empty click list reaches a table
whose record has a click count different from the length of its click list. -/
theorem reachable_miscounted_counterexample :
    (runCalls NewURLStore
        [⟨⟨0⟩, Op.Create ⟨"abc123", "https://example.com", ⟨0⟩, ⟨60⟩, 1, []⟩⟩]).urls "abc123" =
      some ⟨"abc123", "https://example.com", ⟨0⟩, ⟨60⟩, 1, []⟩ ∧
    (⟨"abc123", "https://example.com", ⟨0⟩, ⟨60⟩, 1, []⟩ : ShortURL).Clicks ≠
      ((⟨"abc123", "https://example.com", ⟨0⟩, ⟨60⟩, 1, []⟩ : ShortURL).ClickData.length : Int) := by
  refine ⟨?_, by decide⟩
  simp [runCalls, stepStore, InMemoryURLStore.Create, NewURLStore, mapSet]

/-- C9 (amended): in every table reached from the empty store by a sequence of
store calls in which each record handed to `Create` or `Update` has an `int`
click count equal to the length of its click list (as the records built by the
creation handler, with count 0 and no clicks), every stored record has a click
count equal to the length of its click list, as long as that length is at most
`2^63 - 1`, the largest length of a Go slice. -/
theorem reachable_counted (calls : List Call)
    (hargs : ∀ call ∈ calls, suppliesCountedRecord call.op = true)
    (k : String) (r : ShortURL) (hk : (runCalls NewURLStore calls).urls k = some r) :
    r.Clicks = wrapInt r.ClickData.length ∧
    ((r.ClickData.length : Int) ≤ maxInt → r.Clicks = r.ClickData.length) := by
  have h := runCalls_counted calls NewURLStore
    (fun k r hkr => by simp [NewURLStore] at hkr) hargs k r hk
  refine ⟨h, fun hle => ?_⟩
  unfold maxInt at hle
  rw [h]
  exact wrapInt_of_inRange _ (by omega) (by omega)

/-- Witness for C9 (amended): a record created empty, clicked twice, updated
with a consistent record and clicked again. -/
theorem reachable_counted_witness :
    (⟨"abc123", "https://example.org", ⟨0⟩, ⟨60⟩, 2,
        [⟨⟨7⟩, "", "", ""⟩, ⟨⟨9⟩, "r", "l", "u"⟩]⟩ : ShortURL).Clicks =
      ((⟨"abc123", "https://example.org", ⟨0⟩, ⟨60⟩, 2,
        [⟨⟨7⟩, "", "", ""⟩, ⟨⟨9⟩, "r", "l", "u"⟩]⟩ : ShortURL).ClickData.length : Int) :=
  (reachable_counted
    [⟨⟨0⟩, Op.Create ⟨"abc123", "https://example.com", ⟨0⟩, ⟨60⟩, 0, []⟩⟩,
      ⟨⟨1⟩, Op.RecordClick "abc123" ⟨⟨1⟩, "", "", ""⟩⟩,
      ⟨⟨2⟩, Op.Delete "other"⟩,
      ⟨⟨3⟩, Op.Update ⟨"abc123", "https://example.org", ⟨0⟩, ⟨60⟩, 1, [⟨⟨7⟩, "", "", ""⟩]⟩⟩,
      ⟨⟨9⟩, Op.RecordClick "abc123" ⟨⟨9⟩, "r", "l", "u"⟩⟩]
    (by decide) "abc123"
    ⟨"abc123", "https://example.org", ⟨0⟩, ⟨60⟩, 2, [⟨⟨7⟩, "", "", ""⟩, ⟨⟨9⟩, "r", "l", "u"⟩]⟩
    (by simp [runCalls, stepStore, InMemoryURLStore.Create, InMemoryURLStore.RecordClick,
      InMemoryURLStore.Delete, InMemoryURLStore.Update, NewURLStore, mapSet, Time.After,
      wrapInt])).2 (by decide)

/-! ## Creation happens once per shortcode, up to deletion -/

theorem step_presence (s : InMemoryURLStore) (call : Call) (c : String) :
    (createSucceeds s call c = true →
      deleteSucceeds s call c = false ∧ (s.urls c).isSome = false ∧
      ((stepStore s call).urls c).isSome = true) ∧
    (deleteSucceeds s call c = true →
      createSucceeds s call c = false ∧ (s.urls c).isSome = true ∧
      ((stepStore s call).urls c).isSome = false) ∧
    (createSucceeds s call c = false → deleteSucceeds s call c = false →
      ((stepStore s call).urls c).isSome = (s.urls c).isSome) := by
  obtain ⟨now, op⟩ := call
  cases op with
  | Create v =>
    by_cases hid : v.ID = c
    · subst hid
      cases hv : s.urls v.ID with
      | none => simp [createSucceeds, deleteSucceeds, stepStore, create_absent s v hv, mapSet]
      | some r0 =>
        simp [createSucceeds, deleteSucceeds, stepStore, create_present s v r0 hv, hv]
    · have hne : c ≠ v.ID := fun h => hid h.symm
      cases hv : s.urls v.ID with
      | none =>
        simp [createSucceeds, deleteSucceeds, stepStore, create_absent s v hv, mapSet, hid, hne]
      | some r0 =>
        simp [createSucceeds, deleteSucceeds, stepStore, create_present s v r0 hv, hid]
  | Get d => simp [createSucceeds, deleteSucceeds, stepStore, get_store]
  | Update v =>
    cases hv : s.urls v.ID with
    | none => simp [createSucceeds, deleteSucceeds, stepStore, InMemoryURLStore.Update, hv]
    | some r0 =>
      by_cases hid : c = v.ID
      · subst hid
        simp [createSucceeds, deleteSucceeds, stepStore, InMemoryURLStore.Update, hv, mapSet]
      · simp [createSucceeds, deleteSucceeds, stepStore, InMemoryURLStore.Update, hv, mapSet,
          hid]
  | Delete d =>
    by_cases hid : d = c
    · subst hid
      cases hd : s.urls d with
      | none => simp [createSucceeds, deleteSucceeds, stepStore, InMemoryURLStore.Delete, hd]
      | some r0 =>
        simp [createSucceeds, deleteSucceeds, stepStore, InMemoryURLStore.Delete, hd, mapDelete]
    · have hne : c ≠ d := fun h => hid h.symm
      cases hd : s.urls d with
      | none => simp [createSucceeds, deleteSucceeds, stepStore, InMemoryURLStore.Delete, hd, hid]
      | some r0 =>
        simp [createSucceeds, deleteSucceeds, stepStore, InMemoryURLStore.Delete, hd, mapDelete,
          hid, hne]
  | RecordClick d e =>
    cases hd : s.urls d with
    | none => simp [createSucceeds, deleteSucceeds, stepStore, recordClick_absent s now d e hd]
    | some r0 =>
      by_cases hexp : r0.ExpiresAt.nanos < now.nanos
      · simp [createSucceeds, deleteSucceeds, stepStore,
          recordClick_expired s now d e r0 hd hexp]
      · by_cases hid : c = d
        · subst hid
          simp [createSucceeds, deleteSucceeds, stepStore,
            recordClick_live s now c e r0 hd hexp, mapSet, hd]
        · simp [createSucceeds, deleteSucceeds, stepStore,
            recordClick_live s now d e r0 hd hexp, mapSet, hid]
  | ShortcodeExists d =>
    simp [createSucceeds, deleteSucceeds, stepStore, InMemoryURLStore.ShortcodeExists]

theorem successfulCreates_le (c : String) (calls : List Call) :
    ∀ s : InMemoryURLStore,
      successfulCreates c s calls ≤
        successfulDeletes c s calls + (if (s.urls c).isSome = true then 0 else 1) := by
  induction calls with
  | nil => intro s; simp [successfulCreates]
  | cons call rest ih =>
    intro s
    have hstep := step_presence s call c
    have hrest := ih (stepStore s call)
    simp only [successfulCreates, successfulDeletes]
    cases hc : createSucceeds s call c with
    | true =>
      obtain ⟨hd, h0, h1⟩ := hstep.1 hc
      simp only [hd, h0, h1, if_true] at hrest ⊢
      simp only [Bool.false_eq_true, if_false]
      omega
    | false =>
      cases hd : deleteSucceeds s call c with
      | true =>
        obtain ⟨-, h0, h1⟩ := hstep.2.1 hd
        simp only [h0, h1, if_true] at hrest ⊢
        simp only [Bool.false_eq_true, if_false] at hrest ⊢
        omega
      | false =>
        have h1 := hstep.2.2 hc hd
        rw [h1] at hrest
        simp only [Bool.false_eq_true, if_false]
        omega

/-- C10 (as stated, refuted): after a successful `Delete` the shortcode can be
created again, so in the sequence `Create`, `Delete`, `Create` on "abc123" two
`Create` calls with the same shortcode succeed, the second with another target. -/
theorem create_after_delete_counterexample :
    successfulCreates "abc123" NewURLStore
      [⟨⟨0⟩, Op.Create ⟨"abc123", "https://example.com", ⟨0⟩, ⟨60⟩, 0, []⟩⟩,
        ⟨⟨1⟩, Op.Delete "abc123"⟩,
        ⟨⟨2⟩, Op.Create ⟨"abc123", "https://other.example", ⟨2⟩, ⟨62⟩, 0, []⟩⟩] = 2 ∧
    (runCalls NewURLStore
      [⟨⟨0⟩, Op.Create ⟨"abc123", "https://example.com", ⟨0⟩, ⟨60⟩, 0, []⟩⟩,
        ⟨⟨1⟩, Op.Delete "abc123"⟩,
        ⟨⟨2⟩, Op.Create ⟨"abc123", "https://other.example", ⟨2⟩, ⟨62⟩, 0, []⟩⟩]).urls "abc123" =
      some ⟨"abc123", "https://other.example", ⟨2⟩, ⟨62⟩, 0, []⟩ := by
  constructor <;>
    simp [successfulCreates, createSucceeds, runCalls, stepStore, InMemoryURLStore.Create,
      InMemoryURLStore.Delete, NewURLStore, mapSet, mapDelete]

/-- C10 (amended): in every sequence of store calls (`Create`, `Get`, `Update`,
`Delete`, `RecordClick`, `ShortcodeExists`) starting from the empty store in
which no `Delete` of the shortcode succeeds, at most one `Create` call with
that shortcode succeeds; in every sequence the successful `Create` calls for a
shortcode are at most one more than its successful `Delete` calls. -/
theorem create_once_unless_deleted (calls : List Call) (c : String)
    (hnodelete : successfulDeletes c NewURLStore calls = 0) :
    successfulCreates c NewURLStore calls ≤ 1 ∧
    ∀ (calls' : List Call) (c' : String),
      successfulCreates c' NewURLStore calls' ≤ successfulDeletes c' NewURLStore calls' + 1 := by
  have hgen : ∀ (calls' : List Call) (c' : String),
      successfulCreates c' NewURLStore calls' ≤
        successfulDeletes c' NewURLStore calls' + 1 := by
    intro calls' c'
    have h := successfulCreates_le c' calls' NewURLStore
    simpa [NewURLStore] using h
  refine ⟨?_, hgen⟩
  have h := hgen calls c
  omega

/-- Witness for C10 (amended): two `Create` calls for "abc123" with a failing
`Delete` of another code in between; only one `Create` succeeds. -/
theorem create_once_unless_deleted_witness :
    successfulCreates "abc123" NewURLStore
      [⟨⟨0⟩, Op.Create ⟨"abc123", "https://example.com", ⟨0⟩, ⟨60⟩, 0, []⟩⟩,
        ⟨⟨1⟩, Op.Delete "zzz"⟩,
        ⟨⟨2⟩, Op.Create ⟨"abc123", "https://other.example", ⟨2⟩, ⟨62⟩, 0, []⟩⟩] ≤ 1 :=
  (create_once_unless_deleted
    [⟨⟨0⟩, Op.Create ⟨"abc123", "https://example.com", ⟨0⟩, ⟨60⟩, 0, []⟩⟩,
      ⟨⟨1⟩, Op.Delete "zzz"⟩,
      ⟨⟨2⟩, Op.Create ⟨"abc123", "https://other.example", ⟨2⟩, ⟨62⟩, 0, []⟩⟩]
    "abc123"
    (by simp [successfulDeletes, deleteSucceeds])).1

/-! ## Update and Delete -/

theorem mapDelete_same (m : String → Option ShortURL) (k : String) :
    mapDelete m k k = none := by
  simp [mapDelete]

theorem mapDelete_other (m : String → Option ShortURL) (k k' : String) (h : k' ≠ k) :
    mapDelete m k k' = m k' := by
  simp [mapDelete, h]

theorem update_absent (s : InMemoryURLStore) (r : ShortURL) (h : s.urls r.ID = none) :
    s.Update r = (some StoreError.ErrShortcodeNotFound, s) := by
  simp [InMemoryURLStore.Update, h]

theorem update_present (s : InMemoryURLStore) (r r0 : ShortURL)
    (h : s.urls r.ID = some r0) :
    s.Update r = (none, ⟨mapSet s.urls r.ID r⟩) := by
  simp [InMemoryURLStore.Update, h]

theorem delete_absent (s : InMemoryURLStore) (c : String) (h : s.urls c = none) :
    s.Delete c = (some StoreError.ErrShortcodeNotFound, s) := by
  simp [InMemoryURLStore.Delete, h]

theorem delete_present (s : InMemoryURLStore) (c : String) (r0 : ShortURL)
    (h : s.urls c = some r0) :
    s.Delete c = (none, ⟨mapDelete s.urls c⟩) := by
  simp [InMemoryURLStore.Delete, h]

/-- C11: `Update r` and `Delete c` fail, and then with `ErrShortcodeNotFound`,
exactly when the shortcode (`r.ID`, resp. `c`) is absent from the table, and
then leave the table unchanged; when it is present, `Update r` makes the table
map `r.ID` to exactly `r`, and `Delete c` removes the key, so that afterwards
`ShortcodeExists c` is false and `Get c` fails with `ErrShortcodeNotFound`; in
both cases the records under all other keys are unchanged. -/
theorem update_delete_outcome (s : InMemoryURLStore) (r : ShortURL) (c : String) :
    ((s.Update r).1 = some StoreError.ErrShortcodeNotFound ↔ s.urls r.ID = none) ∧
    ((s.Update r).1 ≠ none ↔ s.urls r.ID = none) ∧
    (s.urls r.ID = none → (s.Update r).2 = s) ∧
    ((s.urls r.ID).isSome = true →
      (s.Update r).1 = none ∧ (s.Update r).2.urls r.ID = some r ∧
      ∀ k, k ≠ r.ID → (s.Update r).2.urls k = s.urls k) ∧
    ((s.Delete c).1 = some StoreError.ErrShortcodeNotFound ↔ s.urls c = none) ∧
    ((s.Delete c).1 ≠ none ↔ s.urls c = none) ∧
    (s.urls c = none → (s.Delete c).2 = s) ∧
    ((s.urls c).isSome = true →
      (s.Delete c).1 = none ∧ (s.Delete c).2.urls c = none ∧
      ((s.Delete c).2.ShortcodeExists c).1 = false ∧
      (∀ now, ((s.Delete c).2.Get now c).1 =
        Except.error StoreError.ErrShortcodeNotFound) ∧
      ∀ k, k ≠ c → (s.Delete c).2.urls k = s.urls k) := by
  refine ⟨?_, ?_, ?_, ?_, ?_, ?_, ?_, ?_⟩
  · cases h : s.urls r.ID with
    | none => simp [update_absent s r h]
    | some r0 => simp [update_present s r r0 h]
  · cases h : s.urls r.ID with
    | none => simp [update_absent s r h]
    | some r0 => simp [update_present s r r0 h]
  · intro h
    rw [update_absent s r h]
  · intro h
    obtain ⟨r0, hr0⟩ := Option.isSome_iff_exists.1 h
    rw [update_present s r r0 hr0]
    exact ⟨rfl, mapSet_same _ _ _, fun k hk => mapSet_other _ _ _ _ hk⟩
  · cases h : s.urls c with
    | none => simp [delete_absent s c h]
    | some r0 => simp [delete_present s c r0 h]
  · cases h : s.urls c with
    | none => simp [delete_absent s c h]
    | some r0 => simp [delete_present s c r0 h]
  · intro h
    rw [delete_absent s c h]
  · intro h
    obtain ⟨r0, hr0⟩ := Option.isSome_iff_exists.1 h
    rw [delete_present s c r0 hr0]
    refine ⟨rfl, mapDelete_same _ _, ?_, ?_, fun k hk => mapDelete_other _ _ _ hk⟩
    · simp [InMemoryURLStore.ShortcodeExists, mapDelete]
    · intro now
      rw [get_absent _ now c (mapDelete_same _ _)]

/-! ## Creation handler -/

theorem createShortURL_accepted (h : Handler) (now : Time) (rand : Option (Nat → Nat))
    (parse : String → Option String) (r : Request) (resp : Response) (h' : Handler)
    (heq : h.CreateShortURL now rand parse r = (resp, h'))
    (hst : resp.status = some 201) :
    ∃ (req : CreateShortURLRequest) (code : String) (v : Int),
      r.Body = some req ∧
      (∀ x, req.Validity = some x → 0 < x → v = x) ∧
      ((req.Validity = none ∨ ∃ x, req.Validity = some x ∧ x ≤ 0) → v = 30) ∧
      0 < v ∧
      (req.Shortcode = "" → GenerateShortcode DefaultShortcodeLength rand = Except.ok code) ∧
      (req.Shortcode ≠ "" → code = req.Shortcode ∧ ValidateShortcode code = true) ∧
      h.store.urls code = none ∧
      h'.store = ⟨mapSet h.store.urls code
        ⟨code, req.URL, now, now.Add (wrapInt (v * Minute)), 0, []⟩⟩ ∧
      resp = Response.created 201
        ⟨(if r.TLS then "https" else "http") ++ "://" ++ r.Host ++ "/" ++ code,
          now.Add (wrapInt (v * Minute))⟩ := by
  unfold Handler.CreateShortURL at heq
  cases hb : r.Body with
  | none =>
    simp only [hb] at heq
    cases heq
    simp [respondWithError, Response.status] at hst
  | some req =>
    simp only [hb] at heq
    by_cases hu : req.URL = ""
    · simp only [hu, if_true] at heq
      cases heq
      simp [respondWithError, Response.status] at hst
    · simp only [if_neg hu] at heq
      cases hp : parse req.URL with
      | some e =>
        simp only [hp] at heq
        cases heq
        simp [respondWithError, Response.status] at hst
      | none =>
        simp only [hp] at heq
        generalize hvdef : (match req.Validity with
          | some v => if v > 0 then v else DefaultValidityMinutes
          | none => DefaultValidityMinutes) = v at heq
        have hv1 : ∀ x, req.Validity = some x → 0 < x → v = x := by
          intro x hx hpos
          rw [hx] at hvdef
          simp only [gt_iff_lt, if_pos hpos] at hvdef
          exact hvdef.symm
        have hv2 : (req.Validity = none ∨ ∃ x, req.Validity = some x ∧ x ≤ 0) → v = 30 := by
          rintro (hx | ⟨x, hx, hle⟩)
          · rw [hx] at hvdef
            exact hvdef.symm
          · rw [hx] at hvdef
            simp only [gt_iff_lt, if_neg (not_lt.2 hle)] at hvdef
            exact hvdef.symm
        have hv3 : 0 < v := by
          cases hx : req.Validity with
          | none =>
            rw [hv2 (Or.inl hx)]
            decide
          | some x =>
            by_cases hpos : 0 < x
            · rw [hv1 x hx hpos]
              exact hpos
            · rw [hv2 (Or.inr ⟨x, hx, not_lt.1 hpos⟩)]
              decide
        have hfin : ∀ (s : InMemoryURLStore) (code : String),
            (match s.Create ⟨code, req.URL, now, now.Add (wrapInt (v * Minute)), 0, []⟩ with
              | (some _, s') =>
                (respondWithError 500 "Failed to create short URL", (⟨s'⟩ : Handler))
              | (none, s') =>
                (Response.created 201
                  ⟨(if r.TLS = true then "https" else "http") ++ "://" ++ r.Host ++ "/" ++ code,
                    now.Add (wrapInt (v * Minute))⟩, ⟨s'⟩)) = (resp, h') →
            s.urls code = none ∧
            h'.store = ⟨mapSet s.urls code
              ⟨code, req.URL, now, now.Add (wrapInt (v * Minute)), 0, []⟩⟩ ∧
            resp = Response.created 201
              ⟨(if r.TLS = true then "https" else "http") ++ "://" ++ r.Host ++ "/" ++ code,
                now.Add (wrapInt (v * Minute))⟩ := by
          intro s code hm
          cases hc : s.urls code with
          | some r0 =>
            rw [create_present s _ r0 hc] at hm
            cases hm
            simp [respondWithError, Response.status] at hst
          | none =>
            rw [create_absent s _ hc] at hm
            cases hm
            exact ⟨rfl, rfl, rfl⟩
        by_cases hsc : req.Shortcode = ""
        · simp only [if_pos hsc] at heq
          cases hg : GenerateShortcode DefaultShortcodeLength rand with
          | error e =>
            rw [hg] at heq
            cases e <;>
            · cases heq
              simp [respondWithError, Response.status] at hst
          | ok code =>
            rw [hg] at heq
            obtain ⟨h1, h2, h3⟩ := hfin h.store code heq
            exact ⟨req, code, v, rfl, hv1, hv2, hv3, fun _ => rfl,
              fun hne => absurd hsc hne, h1, h2, h3⟩
        · simp only [if_neg hsc] at heq
          cases hval : ValidateShortcode req.Shortcode with
          | false =>
            simp only [hval, if_true] at heq
            cases heq
            simp [respondWithError, Response.status] at hst
          | true =>
            simp only [hval, Bool.true_eq_false, if_false] at heq
            cases hex : h.store.urls req.Shortcode with
            | some r0 =>
              simp only [InMemoryURLStore.ShortcodeExists, hex, Option.isSome_some] at heq
              cases heq
              simp [respondWithError, Response.status] at hst
            | none =>
              simp only [InMemoryURLStore.ShortcodeExists, hex, Option.isSome_none] at heq
              obtain ⟨h1, h2, h3⟩ := hfin h.store req.Shortcode heq
              exact ⟨req, req.Shortcode, v, rfl, hv1, hv2, hv3, fun he => absurd he hsc,
                fun _ => ⟨rfl, hval⟩, h1, h2, h3⟩

theorem wrapInt_minutes (v : Int) (h0 : 0 < v) (h1 : v ≤ 153722867) :
    wrapInt (v * Minute) = v * 60000000000 := by
  unfold Minute
  exact wrapInt_of_inRange _ (by omega) (by omega)

/-- For a request that `CreateShortURL` accepts with a validity of at most
153722867 minutes (the largest whose nanoseconds fit 64 bits), the record in the
store has click count 0, no clicks, creation time `now` and an expiry exactly
`v` minutes later, strictly after the creation time, which is also the expiry
of the response; `v` is the requested validity when present and positive and
30 otherwise. -/
theorem createShortURL_record_in_range (h : Handler) (now : Time)
    (rand : Option (Nat → Nat)) (parse : String → Option String) (r : Request)
    (resp : Response) (h' : Handler)
    (heq : h.CreateShortURL now rand parse r = (resp, h'))
    (hst : resp.status = some 201) :
    ∃ (req : CreateShortURLRequest) (code : String) (v : Int) (link : String),
      r.Body = some req ∧
      (∀ x, req.Validity = some x → 0 < x → v = x) ∧
      ((req.Validity = none ∨ ∃ x, req.Validity = some x ∧ x ≤ 0) → v = 30) ∧
      h'.store.urls code =
        some ⟨code, req.URL, now, now.Add (wrapInt (v * Minute)), 0, []⟩ ∧
      resp = Response.created 201 ⟨link, now.Add (wrapInt (v * Minute))⟩ ∧
      (v ≤ 153722867 →
        now.Add (wrapInt (v * Minute)) = ⟨now.nanos + v * 60000000000⟩ ∧
        now.nanos < (now.Add (wrapInt (v * Minute))).nanos) := by
  obtain ⟨req, code, v, hb, hv1, hv2, hv3, -, -, -, hs, hr⟩ :=
    createShortURL_accepted h now rand parse r resp h' heq hst
  refine ⟨req, code, v, _, hb, hv1, hv2, ?_, hr, ?_⟩
  · rw [hs]
    exact mapSet_same _ _ _
  · intro hle
    rw [wrapInt_minutes v hv3 hle]
    refine ⟨rfl, ?_⟩
    show now.nanos < now.nanos + v * 60000000000
    omega

/-- C12 (code defect): a request with validity 153722868 minutes is accepted
with status 201, but the 64-bit product of the validity and `time.Minute` wraps
to a negative duration, so the stored `ExpiresAt`, which is also the expiry of
the response, lies before `CreatedAt`, and a `Get` at the creation time already
reports the shortcode as expired; with validity 60 the expiry is the creation
time plus 60 minutes. -/
theorem createShortURL_validity_overflow :
    ((Handler.mk NewURLStore).CreateShortURL ⟨1793574000000000000⟩ none (fun _ => none)
        ⟨"/shorturls", "localhost:8000", false, "", "", "",
          some ⟨"https://example.com", some 153722868, "abc123"⟩⟩).1 =
      Response.created 201 ⟨"http://localhost:8000/abc123", ⟨-7429797993709551616⟩⟩ ∧
    ((Handler.mk NewURLStore).CreateShortURL ⟨1793574000000000000⟩ none (fun _ => none)
        ⟨"/shorturls", "localhost:8000", false, "", "", "",
          some ⟨"https://example.com", some 153722868, "abc123"⟩⟩).2.store.urls "abc123" =
      some ⟨"abc123", "https://example.com", ⟨1793574000000000000⟩,
        ⟨-7429797993709551616⟩, 0, []⟩ ∧
    (-7429797993709551616 : Int) < 1793574000000000000 ∧
    (((Handler.mk NewURLStore).CreateShortURL ⟨1793574000000000000⟩ none (fun _ => none)
        ⟨"/shorturls", "localhost:8000", false, "", "", "",
          some ⟨"https://example.com", some 153722868, "abc123"⟩⟩).2.store.Get
        ⟨1793574000000000000⟩ "abc123").1 =
      Except.error StoreError.ErrShortcodeExpired ∧
    ((Handler.mk NewURLStore).CreateShortURL ⟨1793574000000000000⟩ none (fun _ => none)
        ⟨"/shorturls", "localhost:8000", false, "", "", "",
          some ⟨"https://example.com", some 60, "abc123"⟩⟩).1 =
      Response.created 201
        ⟨"http://localhost:8000/abc123", ⟨1793574000000000000 + 60 * 60000000000⟩⟩ := by
  refine ⟨?_, ?_, by decide, ?_, ?_⟩
  · decide
  · simp [Handler.CreateShortURL, InMemoryURLStore.Create, InMemoryURLStore.ShortcodeExists,
      NewURLStore, mapSet, Time.Add, wrapInt, Minute, show ValidateShortcode "abc123" = true by decide]
  · simp [Handler.CreateShortURL, InMemoryURLStore.Create, InMemoryURLStore.ShortcodeExists,
      InMemoryURLStore.Get, Time.After,
      NewURLStore, mapSet, Time.Add, wrapInt, Minute, show ValidateShortcode "abc123" = true by decide]
  · decide

/-! ## Collisions in the creation handler -/

theorem generateShortcode_zero_bytes :
    GenerateShortcode DefaultShortcodeLength (some (fun _ => 0)) = Except.ok "AAAAAA" := by
  rfl

theorem createShortURL_custom_present (h : Handler) (now : Time)
    (rand : Option (Nat → Nat)) (parse : String → Option String) (r : Request)
    (req : CreateShortURLRequest) (r0 : ShortURL)
    (hb : r.Body = some req) (hu : req.URL ≠ "") (hp : parse req.URL = none)
    (hsc : req.Shortcode ≠ "") (hval : ValidateShortcode req.Shortcode = true)
    (hex : h.store.urls req.Shortcode = some r0) :
    h.CreateShortURL now rand parse r =
      (Response.error 409 ⟨"Shortcode already exists", 409⟩, h) := by
  unfold Handler.CreateShortURL
  simp only [hb, if_neg hu, hp, if_neg hsc, hval, Bool.true_eq_false, if_false,
    InMemoryURLStore.ShortcodeExists, hex, Option.isSome_some, respondWithError]

theorem createShortURL_generated_present (h : Handler) (now : Time)
    (rand : Option (Nat → Nat)) (parse : String → Option String) (r : Request)
    (req : CreateShortURLRequest) (code : String) (r0 : ShortURL)
    (hb : r.Body = some req) (hu : req.URL ≠ "") (hp : parse req.URL = none)
    (hsc : req.Shortcode = "")
    (hgen : GenerateShortcode DefaultShortcodeLength rand = Except.ok code)
    (hex : h.store.urls code = some r0) :
    h.CreateShortURL now rand parse r =
      (Response.error 500 ⟨"Failed to create short URL", 500⟩, h) := by
  unfold Handler.CreateShortURL
  simp only [hb, if_neg hu, hp, if_pos hsc, hgen, respondWithError]
  rw [create_present h.store _ r0 hex]

/-- C13 (code defect): when the generated code collides with a stored one,
`Create` returns `ErrShortcodeExists` and the handler answers 500, not 409; the
stored record stays as it is.  Here the store holds "AAAAAA" and the random
source yields six zero bytes.  Only the `ShortcodeExists` pre-check of a custom
code answers 409, as for the custom code "duplicate" posted twice. -/
theorem createShortURL_collision_status :
    ((Handler.mk (NewURLStore.Create
        ⟨"AAAAAA", "https://first.example", ⟨0⟩, ⟨1800000000000⟩, 0, []⟩).2).CreateShortURL
        ⟨5⟩ (some (fun _ => 0)) (fun _ => none)
        ⟨"/shorturls", "localhost:8000", false, "", "", "",
          some ⟨"https://example.com", none, ""⟩⟩).1 =
      Response.error 500 ⟨"Failed to create short URL", 500⟩ ∧
    ((Handler.mk (NewURLStore.Create
        ⟨"AAAAAA", "https://first.example", ⟨0⟩, ⟨1800000000000⟩, 0, []⟩).2).CreateShortURL
        ⟨5⟩ (some (fun _ => 0)) (fun _ => none)
        ⟨"/shorturls", "localhost:8000", false, "", "", "",
          some ⟨"https://example.com", none, ""⟩⟩).2.store =
      (NewURLStore.Create
        ⟨"AAAAAA", "https://first.example", ⟨0⟩, ⟨1800000000000⟩, 0, []⟩).2 ∧
    (∀ (h : Handler) (now : Time) (rand : Option (Nat → Nat))
        (parse : String → Option String) (r : Request) (req : CreateShortURLRequest),
      r.Body = some req → req.URL ≠ "" → parse req.URL = none →
      req.Shortcode ≠ "" → ValidateShortcode req.Shortcode = true →
      (h.store.urls req.Shortcode).isSome = true →
      h.CreateShortURL now rand parse r =
        (Response.error 409 ⟨"Shortcode already exists", 409⟩, h)) ∧
    (((Handler.mk NewURLStore).CreateShortURL ⟨0⟩ none (fun _ => none)
        ⟨"/shorturls", "example.com", false, "", "", "",
          some ⟨"https://example.com", none, "duplicate"⟩⟩).2.CreateShortURL
        ⟨1⟩ none (fun _ => none)
        ⟨"/shorturls", "example.com", false, "", "", "",
          some ⟨"https://example.com", none, "duplicate"⟩⟩).1 =
      Response.error 409 ⟨"Shortcode already exists", 409⟩ := by
  have hstored : (NewURLStore.Create
      ⟨"AAAAAA", "https://first.example", ⟨0⟩, ⟨1800000000000⟩, 0, []⟩).2.urls "AAAAAA" =
      some ⟨"AAAAAA", "https://first.example", ⟨0⟩, ⟨1800000000000⟩, 0, []⟩ := by
    simp [InMemoryURLStore.Create, NewURLStore, mapSet]
  have hfail := createShortURL_generated_present
    (Handler.mk (NewURLStore.Create
      ⟨"AAAAAA", "https://first.example", ⟨0⟩, ⟨1800000000000⟩, 0, []⟩).2)
    ⟨5⟩ (some (fun _ => 0)) (fun _ => none)
    ⟨"/shorturls", "localhost:8000", false, "", "", "",
      some ⟨"https://example.com", none, ""⟩⟩
    ⟨"https://example.com", none, ""⟩ "AAAAAA" _ rfl (by decide) rfl rfl
    generateShortcode_zero_bytes hstored
  refine ⟨by rw [hfail], by rw [hfail], ?_, ?_⟩
  · intro h now rand parse r req hb hu hp hsc hval hex
    obtain ⟨r0, hr0⟩ := Option.isSome_iff_exists.1 hex
    exact createShortURL_custom_present h now rand parse r req r0 hb hu hp hsc hval hr0
  · simp [Handler.CreateShortURL, InMemoryURLStore.Create, InMemoryURLStore.ShortcodeExists,
      NewURLStore, mapSet, respondWithError,
      show ValidateShortcode "duplicate" = true by decide]

/-! ## Statistics and redirect handlers -/

theorem getURLStats_eq (h : Handler) (timeMarshals : Time → Bool) (now : Time)
    (r : Request) :
    h.GetURLStats timeMarshals now r =
      (match (h.store.Get now (TrimPrefix r.Path "/shorturls/")).1 with
        | Except.error StoreError.ErrShortcodeNotFound =>
          Response.error 404 ⟨"Shortcode not found", 404⟩
        | Except.error StoreError.ErrShortcodeExpired =>
          Response.error 410 ⟨"Shortcode has expired", 410⟩
        | Except.error StoreError.ErrShortcodeExists =>
          Response.error 500 ⟨"Failed to retrieve URL", 500⟩
        | Except.ok u =>
          if timeMarshals u.CreatedAt && timeMarshals u.ExpiresAt &&
              u.ClickData.all (fun click => timeMarshals click.Timestamp) then
            Response.stats 200 ⟨u.ID, u.OriginalURL, u.CreatedAt, u.ExpiresAt, u.Clicks,
              u.ClickData⟩
          else Response.empty 200, h) := by
  have hs := get_store h.store now (TrimPrefix r.Path "/shorturls/")
  rcases hg : h.store.Get now (TrimPrefix r.Path "/shorturls/") with ⟨res, s⟩
  rw [hg] at hs
  simp only at hs
  subst hs
  cases res with
  | error e => cases e <;> simp only [Handler.GetURLStats, hg, respondWithError]
  | ok u =>
    simp only [Handler.GetURLStats, hg]
    split <;> rfl

theorem redirectURL_eq (h : Handler) (urlParse : String → Option (String × String))
    (pathClean : String → String) (now clickTime : Time) (r : Request) :
    h.RedirectURL urlParse pathClean now clickTime r =
      (match (h.store.Get now (TrimPrefix r.Path "/")).1 with
        | Except.error StoreError.ErrShortcodeNotFound =>
          (Response.error 404 ⟨"Shortcode not found", 404⟩, h, none)
        | Except.error StoreError.ErrShortcodeExpired =>
          (Response.error 410 ⟨"Shortcode has expired", 410⟩, h, none)
        | Except.error StoreError.ErrShortcodeExists =>
          (Response.error 500 ⟨"Failed to retrieve URL", 500⟩, h, none)
        | Except.ok u =>
          (Response.redirect (Redirect urlParse pathClean r.Path u.OriginalURL) 302, h,
            some (TrimPrefix r.Path "/",
              ⟨clickTime, r.Referer, getLocationFromIP r.RemoteAddr, r.UserAgent⟩))) := by
  have hs := get_store h.store now (TrimPrefix r.Path "/")
  rcases hg : h.store.Get now (TrimPrefix r.Path "/") with ⟨res, s⟩
  rw [hg] at hs
  simp only at hs
  subst hs
  cases res with
  | error e => cases e <;> simp only [Handler.RedirectURL, hg, respondWithError]
  | ok u => simp only [Handler.RedirectURL, hg]

theorem hexEscapeNonASCII_ascii (s : String) (h : ∀ c ∈ s.data, c.toNat < 0x80) :
    hexEscapeNonASCII s = s := by
  have key : ∀ cs : List Char, (∀ c ∈ cs, c.toNat < 0x80) →
      cs.flatMap (fun c =>
        if c.toNat < 0x80 then [c]
        else (utf8Bytes c).flatMap (fun b => ['%', hexDigit (b / 16), hexDigit (b % 16)])) =
        cs := by
    intro cs
    induction cs with
    | nil => intro _; rfl
    | cons a t ih =>
      intro hc
      have ha : a.toNat < 0x80 := hc a (List.mem_cons_self _ _)
      rw [List.flatMap_cons, if_pos ha, ih (fun c hc' => hc c (List.mem_cons_of_mem _ hc'))]
      rfl
  unfold hexEscapeNonASCII
  rw [key s.data h]

theorem redirect_absolute (urlParse : String → Option (String × String))
    (pathClean : String → String) (requestPath url : String)
    (h : urlParse url = none ∨
      ∃ scheme host, urlParse url = some (scheme, host) ∧ (scheme ≠ "" ∨ host ≠ "")) :
    Redirect urlParse pathClean requestPath url = hexEscapeNonASCII url := by
  unfold Redirect
  rcases h with h | ⟨scheme, host, h, hne⟩
  · simp only [h]
  · have hn : ¬ (scheme = "" ∧ host = "") := by
      rintro ⟨h1, h2⟩
      rcases hne with hne | hne
      · exact hne h1
      · exact hne h2
    simp only [h, if_neg hn]

/-- C14 (as stated, refuted): for the stored original URL
`https://example.com/café`, in which `url.Parse` finds the scheme `https` and
the host `example.com`, `RedirectURL` answers 302 with the `Location`
`https://example.com/caf%c3%a9`, which is not the stored URL; and for a stored
record whose expiry is in the year 10000 (instants counted from 1970 in UTC),
`GetURLStats` answers 200 without the record, the body being empty because the
time cannot be encoded as JSON. -/
theorem redirect_location_counterexample :
    ((Handler.mk (NewURLStore.Create
        ⟨"cafe", "https://example.com/café", ⟨0⟩, ⟨1800000000000⟩, 0, []⟩).2).RedirectURL
        (fun _ => some ("https", "example.com")) (fun p => p) ⟨7⟩ ⟨8⟩
        ⟨"/cafe", "example.com", false, "", "", "", none⟩).1 =
      Response.redirect "https://example.com/caf%c3%a9" 302 ∧
    ("https://example.com/caf%c3%a9" : String) ≠ "https://example.com/café" ∧
    ((Handler.mk (NewURLStore.Create
        ⟨"late", "https://example.com", ⟨0⟩, ⟨253402300800000000000⟩, 0, []⟩).2).store.Get
        ⟨7⟩ "late").1 =
      Except.ok ⟨"late", "https://example.com", ⟨0⟩, ⟨253402300800000000000⟩, 0, []⟩ ∧
    ((Handler.mk (NewURLStore.Create
        ⟨"late", "https://example.com", ⟨0⟩, ⟨253402300800000000000⟩, 0, []⟩).2).GetURLStats
        (fun t => decide (-62167219200000000000 ≤ t.nanos ∧ t.nanos < 253402300800000000000))
        ⟨7⟩ ⟨"/shorturls/late", "example.com", false, "", "", "", none⟩).1 =
      Response.empty 200 := by
  have hcafe : (NewURLStore.Create
      ⟨"cafe", "https://example.com/café", ⟨0⟩, ⟨1800000000000⟩, 0, []⟩).2.Get ⟨7⟩
      (TrimPrefix "/cafe" "/") =
      (Except.ok ⟨"cafe", "https://example.com/café", ⟨0⟩, ⟨1800000000000⟩, 0, []⟩,
        (NewURLStore.Create
          ⟨"cafe", "https://example.com/café", ⟨0⟩, ⟨1800000000000⟩, 0, []⟩).2) :=
    get_live _ _ _ _
      (by simp [InMemoryURLStore.Create, NewURLStore, mapSet, TrimPrefix]) (by decide)
  have hlate : (NewURLStore.Create
      ⟨"late", "https://example.com", ⟨0⟩, ⟨253402300800000000000⟩, 0, []⟩).2.Get ⟨7⟩
      (TrimPrefix "/shorturls/late" "/shorturls/") =
      (Except.ok ⟨"late", "https://example.com", ⟨0⟩, ⟨253402300800000000000⟩, 0, []⟩,
        (NewURLStore.Create
          ⟨"late", "https://example.com", ⟨0⟩, ⟨253402300800000000000⟩, 0, []⟩).2) :=
    get_live _ _ _ _
      (by simp [InMemoryURLStore.Create, NewURLStore, mapSet, TrimPrefix]) (by decide)
  refine ⟨?_, by decide, ?_, ?_⟩
  · rw [redirectURL_eq]
    simp only [hcafe]
    have hloc : Redirect (fun _ => some ("https", "example.com")) (fun p => p) "/cafe"
        "https://example.com/café" = "https://example.com/caf%c3%a9" := by decide
    rw [hloc]
  · have h2 : TrimPrefix "/shorturls/late" "/shorturls/" = "late" := by decide
    rw [h2] at hlate
    exact congrArg Prod.fst hlate
  · rw [getURLStats_eq]
    simp only [hlate]
    decide

/-- C14 (amended): for the shortcode cut from the request path, `GetURLStats`
and `RedirectURL` answer as `store.Get` decides: `ErrShortcodeNotFound` gives
status 404 and `ErrShortcodeExpired` status 410 in both; on success
`GetURLStats` answers 200, with the stored record's shortcode, original URL,
creation time, expiry, click count and whole click list as its document
whenever the times of the record and of its clicks can be encoded as JSON, and
`RedirectURL` answers 302 with the `Location` that `http.Redirect` derives from
the stored original URL: that URL with its non-ASCII bytes percent-escaped when
it has a scheme or a host, hence the stored URL itself when it moreover
consists of ASCII characters; neither handler changes the store. -/
theorem stats_redirect_outcome (h : Handler) (timeMarshals : Time → Bool)
    (urlParse : String → Option (String × String)) (pathClean : String → String)
    (now clickTime : Time) (r : Request) :
    ((h.store.Get now (TrimPrefix r.Path "/shorturls/")).1 =
        Except.error StoreError.ErrShortcodeNotFound →
      (h.GetURLStats timeMarshals now r).1 =
        Response.error 404 ⟨"Shortcode not found", 404⟩ ∧
      (h.GetURLStats timeMarshals now r).1.status = some 404) ∧
    ((h.store.Get now (TrimPrefix r.Path "/shorturls/")).1 =
        Except.error StoreError.ErrShortcodeExpired →
      (h.GetURLStats timeMarshals now r).1 =
        Response.error 410 ⟨"Shortcode has expired", 410⟩ ∧
      (h.GetURLStats timeMarshals now r).1.status = some 410) ∧
    (∀ u, (h.store.Get now (TrimPrefix r.Path "/shorturls/")).1 = Except.ok u →
      (h.GetURLStats timeMarshals now r).1.status = some 200 ∧
      (timeMarshals u.CreatedAt = true → timeMarshals u.ExpiresAt = true →
        (∀ click ∈ u.ClickData, timeMarshals click.Timestamp = true) →
        (h.GetURLStats timeMarshals now r).1 =
          Response.stats 200
            ⟨u.ID, u.OriginalURL, u.CreatedAt, u.ExpiresAt, u.Clicks, u.ClickData⟩)) ∧
    (h.GetURLStats timeMarshals now r).2 = h ∧
    ((h.store.Get now (TrimPrefix r.Path "/")).1 =
        Except.error StoreError.ErrShortcodeNotFound →
      (h.RedirectURL urlParse pathClean now clickTime r).1 =
        Response.error 404 ⟨"Shortcode not found", 404⟩ ∧
      (h.RedirectURL urlParse pathClean now clickTime r).1.status = some 404) ∧
    ((h.store.Get now (TrimPrefix r.Path "/")).1 =
        Except.error StoreError.ErrShortcodeExpired →
      (h.RedirectURL urlParse pathClean now clickTime r).1 =
        Response.error 410 ⟨"Shortcode has expired", 410⟩ ∧
      (h.RedirectURL urlParse pathClean now clickTime r).1.status = some 410) ∧
    (∀ u, (h.store.Get now (TrimPrefix r.Path "/")).1 = Except.ok u →
      (h.RedirectURL urlParse pathClean now clickTime r).1 =
        Response.redirect (Redirect urlParse pathClean r.Path u.OriginalURL) 302 ∧
      (h.RedirectURL urlParse pathClean now clickTime r).1.status = some 302 ∧
      ((urlParse u.OriginalURL = none ∨
          ∃ scheme host, urlParse u.OriginalURL = some (scheme, host) ∧
            (scheme ≠ "" ∨ host ≠ "")) →
        (h.RedirectURL urlParse pathClean now clickTime r).1.location =
          some (hexEscapeNonASCII u.OriginalURL) ∧
        ((∀ c ∈ u.OriginalURL.data, c.toNat < 0x80) →
          (h.RedirectURL urlParse pathClean now clickTime r).1.location =
            some u.OriginalURL))) ∧
    (h.RedirectURL urlParse pathClean now clickTime r).2.1 = h := by
  have hst := getURLStats_eq h timeMarshals now r
  have hre := redirectURL_eq h urlParse pathClean now clickTime r
  refine ⟨?_, ?_, ?_, ?_, ?_, ?_, ?_, ?_⟩
  · intro hg
    rw [hg] at hst
    rw [hst]
    exact ⟨rfl, rfl⟩
  · intro hg
    rw [hg] at hst
    rw [hst]
    exact ⟨rfl, rfl⟩
  · intro u hg
    rw [hg] at hst
    rw [hst]
    refine ⟨?_, ?_⟩
    · show (if _ then _ else _ : Response).status = some 200
      split <;> rfl
    · intro h1 h2 h3
      have hall : u.ClickData.all (fun click => timeMarshals click.Timestamp) = true :=
        List.all_eq_true.2 h3
      show (if _ then _ else _ : Response) = _
      rw [h1, h2, hall]
      rfl
  · rw [hst]
  · intro hg
    rw [hg] at hre
    rw [hre]
    exact ⟨rfl, rfl⟩
  · intro hg
    rw [hg] at hre
    rw [hre]
    exact ⟨rfl, rfl⟩
  · intro u hg
    rw [hg] at hre
    rw [hre]
    refine ⟨rfl, rfl, ?_⟩
    intro habs
    have hloc := redirect_absolute urlParse pathClean r.Path u.OriginalURL habs
    refine ⟨?_, ?_⟩
    · show some (Redirect urlParse pathClean r.Path u.OriginalURL) = _
      rw [hloc]
    · intro hascii
      show some (Redirect urlParse pathClean r.Path u.OriginalURL) = _
      rw [hloc, hexEscapeNonASCII_ascii _ hascii]
  · rw [hre]
    cases (h.store.Get now (TrimPrefix r.Path "/")).1 with
    | error e => cases e <;> rfl
    | ok u => rfl

/-- Witness for C14 (amended), the cases of the handler tests: "teststats"
gives 200 with its shortcode and URL, "testredirect" gives 302 with the
`Location` https://example.com, and "nonexistent" gives 404 in both handlers. -/
theorem stats_redirect_outcome_witness :
    ((Handler.mk (NewURLStore.Create
        ⟨"teststats", "https://example.com", ⟨0⟩, ⟨1800000000000⟩, 0, []⟩).2).GetURLStats
        (fun t => decide (-62167219200000000000 ≤ t.nanos ∧ t.nanos < 253402300800000000000))
        ⟨7⟩
        ⟨"/shorturls/teststats", "example.com", false, "", "", "", none⟩).1 =
      Response.stats 200
        ⟨"teststats", "https://example.com", ⟨0⟩, ⟨1800000000000⟩, 0, []⟩ ∧
    ((Handler.mk (NewURLStore.Create
        ⟨"testredirect", "https://example.com", ⟨0⟩, ⟨1800000000000⟩, 0, []⟩).2).RedirectURL
        (fun _ => some ("https", "example.com")) (fun p => p) ⟨7⟩ ⟨8⟩
        ⟨"/testredirect", "example.com", false, "", "", "", none⟩).1.location =
      some "https://example.com" ∧
    ((Handler.mk (NewURLStore.Create
        ⟨"testredirect", "https://example.com", ⟨0⟩, ⟨1800000000000⟩, 0, []⟩).2).RedirectURL
        (fun _ => some ("https", "example.com")) (fun p => p) ⟨7⟩ ⟨8⟩
        ⟨"/testredirect", "example.com", false, "", "", "", none⟩).1.status =
      some 302 ∧
    ((Handler.mk (NewURLStore.Create
        ⟨"teststats", "https://example.com", ⟨0⟩, ⟨1800000000000⟩, 0, []⟩).2).GetURLStats
        (fun t => decide (-62167219200000000000 ≤ t.nanos ∧ t.nanos < 253402300800000000000))
        ⟨7⟩
        ⟨"/shorturls/nonexistent", "example.com", false, "", "", "", none⟩).1.status =
      some 404 ∧
    ((Handler.mk (NewURLStore.Create
        ⟨"testredirect", "https://example.com", ⟨0⟩, ⟨1800000000000⟩, 0, []⟩).2).RedirectURL
        (fun _ => some ("https", "example.com")) (fun p => p) ⟨7⟩ ⟨8⟩
        ⟨"/nonexistent", "example.com", false, "", "", "", none⟩).1.status =
      some 404 := by
  refine ⟨?_, ?_, ?_, ?_, ?_⟩
  · exact ((stats_redirect_outcome _
      (fun t => decide (-62167219200000000000 ≤ t.nanos ∧ t.nanos < 253402300800000000000))
      (fun _ => some ("https", "example.com"))
      (fun p => p) ⟨7⟩ ⟨8⟩
      ⟨"/shorturls/teststats", "example.com", false, "", "", "", none⟩).2.2.1
      ⟨"teststats", "https://example.com", ⟨0⟩, ⟨1800000000000⟩, 0, []⟩
      (by simp [InMemoryURLStore.Create, InMemoryURLStore.Get, NewURLStore, mapSet,
        Time.After, TrimPrefix])).2 (by decide) (by decide) (by simp)
  · exact (((stats_redirect_outcome _
      (fun t => decide (-62167219200000000000 ≤ t.nanos ∧ t.nanos < 253402300800000000000))
      (fun _ => some ("https", "example.com"))
      (fun p => p) ⟨7⟩ ⟨8⟩
      ⟨"/testredirect", "example.com", false, "", "", "", none⟩).2.2.2.2.2.2.1
      ⟨"testredirect", "https://example.com", ⟨0⟩, ⟨1800000000000⟩, 0, []⟩
      (by simp [InMemoryURLStore.Create, InMemoryURLStore.Get, NewURLStore, mapSet,
        Time.After, TrimPrefix])).2.2
      (Or.inr ⟨"https", "example.com", rfl, Or.inl (by decide)⟩)).2 (by decide)
  · exact ((stats_redirect_outcome _
      (fun t => decide (-62167219200000000000 ≤ t.nanos ∧ t.nanos < 253402300800000000000))
      (fun _ => some ("https", "example.com"))
      (fun p => p) ⟨7⟩ ⟨8⟩
      ⟨"/testredirect", "example.com", false, "", "", "", none⟩).2.2.2.2.2.2.1
      ⟨"testredirect", "https://example.com", ⟨0⟩, ⟨1800000000000⟩, 0, []⟩
      (by simp [InMemoryURLStore.Create, InMemoryURLStore.Get, NewURLStore, mapSet,
        Time.After, TrimPrefix])).2.1
  · exact ((stats_redirect_outcome _
      (fun t => decide (-62167219200000000000 ≤ t.nanos ∧ t.nanos < 253402300800000000000))
      (fun _ => some ("https", "example.com"))
      (fun p => p) ⟨7⟩ ⟨8⟩
      ⟨"/shorturls/nonexistent", "example.com", false, "", "", "", none⟩).1
      (by simp [InMemoryURLStore.Create, InMemoryURLStore.Get, NewURLStore, mapSet,
        TrimPrefix])).2
  · exact ((stats_redirect_outcome _
      (fun t => decide (-62167219200000000000 ≤ t.nanos ∧ t.nanos < 253402300800000000000))
      (fun _ => some ("https", "example.com"))
      (fun p => p) ⟨7⟩ ⟨8⟩
      ⟨"/nonexistent", "example.com", false, "", "", "", none⟩).2.2.2.2.1
      (by simp [InMemoryURLStore.Create, InMemoryURLStore.Get, NewURLStore, mapSet,
        TrimPrefix])).2

/-! ## Generated codes and the validation policy -/

theorem generateShortcode_some (length : Int) (g : Nat → Nat) :
    ∃ cs : List Char,
      GenerateShortcode length (some g) = Except.ok (String.mk cs) ∧
      cs.length = (if length ≤ 0 then 6 else length).toNat ∧
      ∀ c ∈ cs, shortcodeClass c = true := by
  generalize hn : (if length ≤ 0 then (6 : Int) else length) = n
  have hlen : ((List.range n.toNat).map (fun i => g i % 256)).length = n.toNat := by simp
  have hge : n.toNat ≤ (EncodeToString ((List.range n.toNat).map
      (fun i => g i % 256))).length := by
    have := encodeToString_length_ge ((List.range n.toNat).map (fun i => g i % 256))
    omega
  have hcls := encodeToString_take_class ((List.range n.toNat).map (fun i => g i % 256))
    n.toNat (by omega)
  refine ⟨(EncodeToString ((List.range n.toNat).map (fun i => g i % 256))).take n.toNat,
    ?_, ?_, hcls⟩
  · unfold GenerateShortcode DefaultShortcodeLength
    simp only [hn, if_pos hge]
    rw [replaceAll_of_absent _ '+' 'a' (fun c hc => (shortcodeClass_not_replaced c (hcls c hc)).1),
      replaceAll_of_absent _ '/' 'b' (fun c hc => (shortcodeClass_not_replaced c (hcls c hc)).2.1),
      replaceAll_of_absent _ '=' 'c' (fun c hc => (shortcodeClass_not_replaced c (hcls c hc)).2.2)]
  · rw [List.length_take, Nat.min_eq_left hge]

theorem validateShortcode_of_class (cs : List Char)
    (hcls : ∀ c ∈ cs, shortcodeClass c = true) :
    ValidateShortcode (String.mk cs) = decide (1 ≤ cs.length ∧ cs.length ≤ 12) := by
  have hsize : (String.mk cs).utf8ByteSize = cs.length := utf8ByteSize_go_class cs hcls
  have hiff := validateShortcode_eq_true (String.mk cs)
  rw [hsize] at hiff
  have hne : String.mk cs ≠ "" ↔ 1 ≤ cs.length := by
    rw [Ne, String.ext_iff]
    show ¬ cs = [] ↔ 1 ≤ cs.length
    cases cs with
    | nil => simp
    | cons a t => simp
  by_cases hr : 1 ≤ cs.length ∧ cs.length ≤ 12
  · rw [decide_eq_true hr]
    exact hiff.2 ⟨hne.2 hr.1, hr.2, hcls⟩
  · rw [decide_eq_false hr]
    cases hv : ValidateShortcode (String.mk cs) with
    | false => rfl
    | true =>
      have h3 := hiff.1 hv
      exact absurd ⟨hne.1 h3.1, h3.2.1⟩ hr

/-- C16: for every requested length and every outcome of the random source
that does not fail, `GenerateShortcode` returns a code that `ValidateShortcode`
accepts when the requested length is at most 12 (a length of 0 or less counting
as 6) and rejects when it is greater than 12; so the code that `CreateShortURL`
generates with the default length 6 and stores without validating it always
satisfies the policy for custom shortcodes. -/
theorem generated_code_validates (length : Int) (f : Nat → Nat) :
    (∃ code, GenerateShortcode length (some f) = Except.ok code ∧
      (length ≤ 12 → ValidateShortcode code = true) ∧
      (12 < length → ValidateShortcode code = false)) ∧
    (∀ (h : Handler) (now : Time) (rand : Option (Nat → Nat))
        (parse : String → Option String) (r : Request) (req : CreateShortURLRequest)
        (resp : Response) (h' : Handler),
      h.CreateShortURL now rand parse r = (resp, h') → resp.status = some 201 →
      r.Body = some req → req.Shortcode = "" →
      ∃ code u, GenerateShortcode DefaultShortcodeLength rand = Except.ok code ∧
        h'.store.urls code = some u ∧ u.ID = code ∧ ValidateShortcode code = true) := by
  constructor
  · obtain ⟨cs, hok, hlen, hcls⟩ := generateShortcode_some length f
    refine ⟨String.mk cs, hok, ?_, ?_⟩
    · intro hle
      rw [validateShortcode_of_class cs hcls, decide_eq_true]
      rw [hlen]
      split <;> omega
    · intro hgt
      rw [validateShortcode_of_class cs hcls, decide_eq_false]
      rw [hlen]
      split <;> omega
  · intro h now rand parse r req resp h' heq hst hb hsc
    obtain ⟨req', code, v, hb', -, -, -, hgen, -, -, hs, -⟩ :=
      createShortURL_accepted h now rand parse r resp h' heq hst
    have hreq : req' = req := by
      rw [hb] at hb'
      exact (Option.some.inj hb').symm
    subst hreq
    have hg := hgen hsc
    refine ⟨code, _, hg, by rw [hs]; exact mapSet_same _ _ _, rfl, ?_⟩
    cases rand with
    | none =>
      have h0 : GenerateShortcode DefaultShortcodeLength none =
          Except.error GenerateFailure.randError := rfl
      rw [h0] at hg
      cases hg
    | some g =>
      obtain ⟨cs, hok, hlen, hcls⟩ := generateShortcode_some DefaultShortcodeLength g
      rw [hok] at hg
      cases hg
      rw [validateShortcode_of_class cs hcls, decide_eq_true]
      rw [hlen]
      decide

end URLShortener
